import Mathlib

/-!
Verification of the powerplant production-plan calculator.

This file gives a shallow embedding of the repository's core algorithm
(`application/calculator.py` together with the data model of
`application/models.py`) and proves or refutes the specification claims
about it.  Python floats are modelled by exact rationals `ℚ`; Python's
`round(x, 1)` (round-half-to-even on the first decimal) is modelled
explicitly by `round1`; Python's insertion-ordered `dict[str, float]` is
modelled by an association list with insert-or-update semantics; raised
`ValueError`s are modelled by `Except CalcError`.
-/

namespace PowerPlan

/-- `PowerPlantType` enumeration of `models.py` (gasfired, turbojet, windturbine). -/
inductive PowerPlantType where
  | GASFIRED
  | TURBOJET
  | WINDTURBINE
deriving DecidableEq

/-- `Fuels` model of `models.py`: fuel prices and wind percentage. -/
structure Fuels where
  gas_euro_per_mwh : ℚ
  kerosine_euro_per_mwh : ℚ
  co2_euro_per_ton : ℚ
  wind_percentage : ℚ
deriving DecidableEq

/-- `PowerPlant` model of `models.py`. -/
structure PowerPlant where
  name : String
  type : PowerPlantType
  efficiency : ℚ
  pmin : ℚ
  pmax : ℚ
deriving DecidableEq

/-- `ProductionPlanRequest` model of `models.py`. -/
structure ProductionPlanRequest where
  load : ℚ
  fuels : Fuels
  powerplants : List PowerPlant
deriving DecidableEq

/-- `PowerPlantOutput` model of `models.py`: one entry of the response. -/
structure PowerPlantOutput where
  name : String
  p : ℚ
deriving DecidableEq

/-- `PowerPlantWithCost` dataclass of `calculator.py`. -/
structure PowerPlantWithCost where
  plant : PowerPlant
  cost_per_mwh : ℚ
  actual_pmax : ℚ
deriving DecidableEq

/-- The field-level validation performed by pydantic on `Fuels`
(`wind_percentage` constrained to `[0, 100]`; the prices carry no bounds). -/
def Fuels.Valid (f : Fuels) : Prop :=
  0 ≤ f.wind_percentage ∧ f.wind_percentage ≤ 100

/-- The field-level validation performed by pydantic on `PowerPlant`:
`0 < efficiency ≤ 1`, `pmin ≥ 0`, `pmax > 0`, and `pmax ≥ pmin`. -/
def PowerPlant.Valid (p : PowerPlant) : Prop :=
  0 < p.efficiency ∧ p.efficiency ≤ 1 ∧ 0 ≤ p.pmin ∧ 0 < p.pmax ∧ p.pmin ≤ p.pmax

/-- Validation of a whole request: positive load, valid fuels, a non-empty
plant list whose members are all valid.  Pydantic enforces exactly this;
the spec's data model additionally declares plant names unique within a
request, which theorems state as a separate `Nodup` hypothesis. -/
def ProductionPlanRequest.Valid (r : ProductionPlanRequest) : Prop :=
  0 < r.load ∧ r.fuels.Valid ∧ r.powerplants ≠ [] ∧ ∀ p ∈ r.powerplants, p.Valid

/-- The errors the calculator can raise: the `ValueError` of
`calculate_cost_per_mwh` for an unknown plant type, and the `ValueError`
of `_allocate_power` carrying the required and the achieved totals. -/
inductive CalcError where
  | unknownPlantType (t : PowerPlantType)
  | loadNotMet (required allocated : ℚ)
deriving DecidableEq

/-- `CO2_EMISSIONS_PER_MWH = 0.3`, the module-level constant of `calculator.py`. -/
def CO2_EMISSIONS_PER_MWH : ℚ := 3 / 10

/-- Python's `round` to an integer: round half to even (banker's rounding),
as specified for Python's builtin `round`. -/
def pyRound (x : ℚ) : ℤ :=
  if x - (⌊x⌋ : ℚ) < 1 / 2 then ⌊x⌋
  else if 1 / 2 < x - (⌊x⌋ : ℚ) then ⌊x⌋ + 1
  else if ⌊x⌋ % 2 = 0 then ⌊x⌋ else ⌊x⌋ + 1

/-- Python's `round(x, 1)`: round to one decimal place, half to even. -/
def round1 (x : ℚ) : ℚ := (pyRound (10 * x) : ℚ) / 10

/-- `q` is a multiple of one tenth (the granularity produced by `round(·, 1)`). -/
def Tenth (q : ℚ) : Prop := (10 * q).den = 1

instance (q : ℚ) : Decidable (Tenth q) := by unfold Tenth; infer_instance

/-- Lookup in a Python `dict[str, float]` modelled as an insertion-ordered
association list: `d.get(k)` as an `Option`. -/
def dictGet : List (String × ℚ) → String → Option ℚ
  | [], _ => none
  | e :: rest, k => if e.1 = k then some e.2 else dictGet rest k

/-- `d.get(k, 0.0)` of Python. -/
def dictGetD (d : List (String × ℚ)) (k : String) : ℚ := (dictGet d k).getD 0

/-- `d[k] = v` of Python: update the existing entry in place (keeping its
position), or append a new entry at the end, as an insertion-ordered dict does. -/
def dictInsert : List (String × ℚ) → String → ℚ → List (String × ℚ)
  | [], k, v => [(k, v)]
  | e :: rest, k, v => if e.1 = k then (k, v) :: rest else e :: dictInsert rest k v

/-- `sum(d.values())` of Python. -/
def dictValuesSum (d : List (String × ℚ)) : ℚ := (d.map (fun e => e.2)).sum

/-- The keys of the dict, in insertion order. -/
def dictKeys (d : List (String × ℚ)) : List String := d.map (fun e => e.1)

/-- The fuel price selected by the `if/elif/else` chain of
`calculate_cost_per_mwh` for a non-wind plant; `none` is the `else` branch
that raises `ValueError`. -/
def fuelCostOf (fuels : Fuels) (t : PowerPlantType) : Option ℚ :=
  if t = PowerPlantType.GASFIRED then some fuels.gas_euro_per_mwh
  else if t = PowerPlantType.TURBOJET then some fuels.kerosine_euro_per_mwh
  else none

/-- `ProductionPlanCalculator.calculate_cost_per_mwh` of `calculator.py`:
0 for wind turbines, otherwise fuel price over efficiency plus the CO2
cost `co2_price * 0.3 / efficiency`; the unmatched plant type raises. -/
def calculate_cost_per_mwh (fuels : Fuels) (plant : PowerPlant) : Except CalcError ℚ :=
  if plant.type = PowerPlantType.WINDTURBINE then Except.ok 0
  else
    match fuelCostOf fuels plant.type with
    | some fuel_cost =>
        Except.ok (fuel_cost / plant.efficiency +
          fuels.co2_euro_per_ton * CO2_EMISSIONS_PER_MWH / plant.efficiency)
    | none => Except.error (CalcError.unknownPlantType plant.type)

/-- `ProductionPlanCalculator.get_actual_pmax`: wind turbines are derated by
the wind percentage, every other plant keeps its `pmax`. -/
def get_actual_pmax (fuels : Fuels) (plant : PowerPlant) : ℚ :=
  if plant.type = PowerPlantType.WINDTURBINE then
    plant.pmax * (fuels.wind_percentage / 100)
  else plant.pmax

/-- The cost-building loop at the top of `calculate_production_plan`:
pairs every plant with its cost and actual pmax, propagating the first
cost-model error. -/
def buildPlantsWithCost (fuels : Fuels) : List PowerPlant → Except CalcError (List PowerPlantWithCost)
  | [] => Except.ok []
  | p :: rest =>
    match calculate_cost_per_mwh fuels p with
    | Except.error e => Except.error e
    | Except.ok c =>
      match buildPlantsWithCost fuels rest with
      | Except.error e => Except.error e
      | Except.ok r =>
          Except.ok ({ plant := p, cost_per_mwh := c, actual_pmax := get_actual_pmax fuels p } :: r)

/-- The comparison induced by the sort key
`lambda p: (p.cost_per_mwh, -p.actual_pmax)` of line 95 of `calculator.py`:
the lexicographic "less or equal" on the key `(cost, -actual_pmax)`. -/
def meritOrder (a b : PowerPlantWithCost) : Prop :=
  a.cost_per_mwh < b.cost_per_mwh ∨
    (a.cost_per_mwh = b.cost_per_mwh ∧ b.actual_pmax ≤ a.actual_pmax)

instance : DecidableRel meritOrder := by
  unfold meritOrder
  infer_instance

instance : IsTotal PowerPlantWithCost meritOrder := by
  constructor
  intro a b
  unfold meritOrder
  rcases lt_trichotomy a.cost_per_mwh b.cost_per_mwh with h | h | h
  · exact Or.inl (Or.inl h)
  · rcases le_total b.actual_pmax a.actual_pmax with h2 | h2
    · exact Or.inl (Or.inr ⟨h, h2⟩)
    · exact Or.inr (Or.inr ⟨h.symm, h2⟩)
  · exact Or.inr (Or.inl h)

instance : IsTrans PowerPlantWithCost meritOrder := by
  constructor
  intro a b c hab hbc
  unfold meritOrder at hab hbc ⊢
  rcases hab with hab | ⟨hab1, hab2⟩ <;> rcases hbc with hbc | ⟨hbc1, hbc2⟩
  · exact Or.inl (lt_trans hab hbc)
  · exact Or.inl (hbc1 ▸ hab)
  · exact Or.inl (hab1 ▸ hbc)
  · exact Or.inr ⟨hab1.trans hbc1, le_trans hbc2 hab2⟩

/-- The in-place `list.sort(key=lambda p: (p.cost_per_mwh, -p.actual_pmax))`
of line 95 of `calculator.py`: ascending cost, ties broken by descending
actual pmax, ties on both keys kept in input order.  Python's sort is the
stable sort for this key; a stable insertion sort is extensionally the same
function, and the stability, sortedness and permutation theorems below pin
the result down uniquely. -/
def rankPlants (l : List PowerPlantWithCost) : List PowerPlantWithCost :=
  l.insertionSort meritOrder

/-- One iteration of the first-pass loop of `_allocate_power`, acting on the
state `(allocation, remaining_load)`; `min pwc.actual_pmax st.2` is the
loop's `available_power` and `round1` of it the loop's `allocated`. -/
def greedyStep (st : List (String × ℚ) × ℚ) (pwc : PowerPlantWithCost) :
    List (String × ℚ) × ℚ :=
  if st.2 ≤ 1 / 10 then (dictInsert st.1 pwc.plant.name 0, st.2)
  else if pwc.plant.pmin ≤ min pwc.actual_pmax st.2 then
    (dictInsert st.1 pwc.plant.name (round1 (min pwc.actual_pmax st.2)),
     st.2 - round1 (min pwc.actual_pmax st.2))
  else (dictInsert st.1 pwc.plant.name 0, st.2)

/-- The whole first pass of `_allocate_power`: fold the greedy step over the
ranked plants starting from the empty allocation and the requested load. -/
def greedyPass (load : ℚ) (plants_with_cost : List PowerPlantWithCost) :
    List (String × ℚ) × ℚ :=
  plants_with_cost.foldl greedyStep ([], load)

/-- One iteration of the loop of `_adjust_allocation`.  The `break` when
`abs(remaining_load) <= 0.1` is modelled by making every later iteration a
no-op, which is equivalent because an iteration has no other effect.
Python's `allocation[pwc.plant.name]` (which would raise `KeyError` on a
missing key) is modelled by `dictGetD`: the pass is only ever invoked after
the greedy pass has written an entry for every plant of the list
(`greedy_mem_keys`), so the default is never consulted on reachable
states. -/
def adjustStep (st : List (String × ℚ) × ℚ) (pwc : PowerPlantWithCost) :
    List (String × ℚ) × ℚ :=
  if |st.2| ≤ 1 / 10 then st
  else if 0 < st.2 then
    if 0 < dictGetD st.1 pwc.plant.name ∧ dictGetD st.1 pwc.plant.name < pwc.actual_pmax then
      (dictInsert st.1 pwc.plant.name
         (round1 (dictGetD st.1 pwc.plant.name +
           min (pwc.actual_pmax - dictGetD st.1 pwc.plant.name) st.2)),
       st.2 - min (pwc.actual_pmax - dictGetD st.1 pwc.plant.name) st.2)
    else if dictGetD st.1 pwc.plant.name = 0 ∧ pwc.plant.pmin ≤ st.2 then
      (dictInsert st.1 pwc.plant.name (round1 (min st.2 pwc.actual_pmax)),
       st.2 - min st.2 pwc.actual_pmax)
    else st
  else st

/-- `ProductionPlanCalculator._adjust_allocation`: walk the ranked plants in
reverse, topping up running plants or starting idle ones. -/
def adjust_allocation (plants_with_cost : List PowerPlantWithCost)
    (allocation : List (String × ℚ)) (remaining_load : ℚ) : List (String × ℚ) :=
  (plants_with_cost.reverse.foldl adjustStep (allocation, remaining_load)).1

/-- The allocation produced by `_allocate_power` before its final check:
first pass, then the adjustment pass if and only if the absolute leftover
load exceeds the 0.1 tolerance. -/
def resultingAllocation (load : ℚ) (plants_with_cost : List PowerPlantWithCost) :
    List (String × ℚ) :=
  let st := greedyPass load plants_with_cost
  if 1 / 10 < |st.2| then adjust_allocation plants_with_cost st.1 st.2 else st.1

/-- `ProductionPlanCalculator._allocate_power`: both passes followed by the
conservation check, which raises `loadNotMet` carrying the required and the
achieved totals when the sum of the allocation values misses the load by
more than 0.1. -/
def allocate_power (load : ℚ) (plants_with_cost : List PowerPlantWithCost) :
    Except CalcError (List (String × ℚ)) :=
  let allocation := resultingAllocation load plants_with_cost
  let total_allocated := dictValuesSum allocation
  if 1 / 10 < |total_allocated - load| then
    Except.error (CalcError.loadNotMet load total_allocated)
  else Except.ok allocation

/-- `ProductionPlanCalculator.calculate_production_plan`: build costs, sort
by merit order, allocate, and emit one response entry per input plant (in
input order) with `round(allocation.get(name, 0.0), 1)`. -/
def calculate_production_plan (req : ProductionPlanRequest) :
    Except CalcError (List PowerPlantOutput) :=
  match buildPlantsWithCost req.fuels req.powerplants with
  | Except.error e => Except.error e
  | Except.ok plants_with_cost =>
    match allocate_power req.load (rankPlants plants_with_cost) with
    | Except.error e => Except.error e
    | Except.ok allocation =>
        Except.ok (req.powerplants.map (fun plant =>
          { name := plant.name, p := round1 (dictGetD allocation plant.name) }))

/-- A feasible dispatch in the sense of the specification: one output per
plant, each output 0 or between the plant's `pmin` and its effective
maximum, summing exactly to the requested load. -/
def FeasibleDispatch (req : ProductionPlanRequest) (outputs : List ℚ) : Prop :=
  outputs.length = req.powerplants.length ∧
  (∀ pr ∈ req.powerplants.zip outputs,
     pr.2 = 0 ∨ (pr.1.pmin ≤ pr.2 ∧ pr.2 ≤ get_actual_pmax req.fuels pr.1)) ∧
  outputs.sum = req.load

/-- The total per-category pricing rule as the specification states it,
used to compare the source's `calculate_cost_per_mwh` against the spec. -/
def costFormula (fuels : Fuels) (plant : PowerPlant) : ℚ :=
  match plant.type with
  | PowerPlantType.WINDTURBINE => 0
  | PowerPlantType.GASFIRED =>
      fuels.gas_euro_per_mwh / plant.efficiency +
        fuels.co2_euro_per_ton * (3 / 10) / plant.efficiency
  | PowerPlantType.TURBOJET =>
      fuels.kerosine_euro_per_mwh / plant.efficiency +
        fuels.co2_euro_per_ton * (3 / 10) / plant.efficiency

/-- The effective maximum output as the specification states it. -/
def effectiveMax (fuels : Fuels) (plant : PowerPlant) : ℚ :=
  match plant.type with
  | PowerPlantType.WINDTURBINE => plant.pmax * (fuels.wind_percentage / 100)
  | _ => plant.pmax

/-- A plant paired with its spec-level cost and effective maximum. -/
def toCosted (fuels : Fuels) (p : PowerPlant) : PowerPlantWithCost :=
  { plant := p, cost_per_mwh := costFormula fuels p, actual_pmax := get_actual_pmax fuels p }

/-- The costed plant list the calculator builds for a request. -/
def costedPlants (req : ProductionPlanRequest) : List PowerPlantWithCost :=
  req.powerplants.map (toCosted req.fuels)

/-- The merit-ordered plant list the calculator sorts for a request. -/
def rankedPlants (req : ProductionPlanRequest) : List PowerPlantWithCost :=
  rankPlants (costedPlants req)

/-- The allocation dictionary of a request after both passes. -/
def finalAllocation (req : ProductionPlanRequest) : List (String × ℚ) :=
  resultingAllocation req.load (rankedPlants req)

instance (req : ProductionPlanRequest) (outputs : List ℚ) :
    Decidable (FeasibleDispatch req outputs) := by
  unfold FeasibleDispatch
  infer_instance

instance (f : Fuels) : Decidable f.Valid := by
  unfold Fuels.Valid
  infer_instance

instance (p : PowerPlant) : Decidable p.Valid := by
  unfold PowerPlant.Valid
  infer_instance

instance (r : ProductionPlanRequest) : Decidable r.Valid := by
  unfold ProductionPlanRequest.Valid
  infer_instance

instance {ε α : Type} [DecidableEq ε] [DecidableEq α] : DecidableEq (Except ε α) := fun a b =>
  match a, b with
  | Except.ok x, Except.ok y =>
    if h : x = y then isTrue (by rw [h])
    else isFalse (by intro hh; injection hh; exact h (by assumption))
  | Except.error x, Except.error y =>
    if h : x = y then isTrue (by rw [h])
    else isFalse (by intro hh; injection hh; exact h (by assumption))
  | Except.ok _, Except.error _ => isFalse (by intro hh; cases hh)
  | Except.error _, Except.ok _ => isFalse (by intro hh; cases hh)

/-- The per-plant bound of the amended claim C2: an allocation value is a
multiple of one tenth and is 0 or lies within
`[min(pmin, effective max) - 0.05, effective max + 0.05]` — `round(·, 1)`
can overshoot either bound by half a tenth, and the adjustment pass can
start a wind-derated plant at its effective maximum below its pmin. -/
def EntryOk (pwc : PowerPlantWithCost) (v : ℚ) : Prop :=
  Tenth v ∧
    (v = 0 ∨ (min pwc.plant.pmin pwc.actual_pmax - 1 / 20 ≤ v ∧
      v ≤ pwc.actual_pmax + 1 / 20))

/-- "Winds come first": in an ordered plant list, whenever the later plant
of a pair is a wind turbine, so is the earlier one. -/
def windFirst (a b : PowerPlantWithCost) : Prop :=
  b.plant.type = PowerPlantType.WINDTURBINE → a.plant.type = PowerPlantType.WINDTURBINE

/-- The single plant of `exWind1Req`. -/
def exWind1Plant : PowerPlant :=
  { name := "wind1", type := PowerPlantType.WINDTURBINE,
    efficiency := 1, pmin := 0, pmax := 100 }

/-- Concrete request: one wind turbine, pmax 100, wind 100 %, load 100
(scenario 1 of the spec's testable properties). -/
def exWind1Req : ProductionPlanRequest :=
  { load := 100,
    fuels := { gas_euro_per_mwh := 10, kerosine_euro_per_mwh := 50,
               co2_euro_per_ton := 20, wind_percentage := 100 },
    powerplants := [exWind1Plant] }

/-- Concrete request: one wind turbine, pmax 1, wind 15 %, load 0.2.  Its
effective maximum is 0.15, yet the plan assigns `round(0.15, 1) = 0.2`. -/
def exRoundReq : ProductionPlanRequest :=
  { load := 1 / 5,
    fuels := { gas_euro_per_mwh := 10, kerosine_euro_per_mwh := 50,
               co2_euro_per_ton := 20, wind_percentage := 15 },
    powerplants := [{ name := "w", type := PowerPlantType.WINDTURBINE,
                      efficiency := 1, pmin := 0, pmax := 1 }] }

/-- Concrete request whose successful plan starts a wind-derated plant
below its `pmin` in the adjustment pass: at 50 % wind, plant `w1`
(pmin 50, pmax 60) has effective maximum 30 and ends up producing 30. -/
def exPminReq : ProductionPlanRequest :=
  { load := 375,
    fuels := { gas_euro_per_mwh := 10, kerosine_euro_per_mwh := 10,
               co2_euro_per_ton := 0, wind_percentage := 50 },
    powerplants :=
      [{ name := "wa", type := PowerPlantType.WINDTURBINE,
         efficiency := 1, pmin := 0, pmax := 200 },
       { name := "w0", type := PowerPlantType.WINDTURBINE,
         efficiency := 1, pmin := 45, pmax := 449 / 5 },
       { name := "w1", type := PowerPlantType.WINDTURBINE,
         efficiency := 1, pmin := 50, pmax := 60 },
       { name := "g", type := PowerPlantType.GASFIRED,
         efficiency := 1, pmin := 150, pmax := 200 }] }

/-- Concrete costed plant for exercising `_adjust_allocation` directly:
running at 20.0 with effective maximum 20.04 (= 501/25).  This state is
reached from a valid request, e.g. pmax 20.04 and load 25. -/
def exAdjustPlant : PowerPlantWithCost :=
  { plant := { name := "a", type := PowerPlantType.GASFIRED,
               efficiency := 1, pmin := 0, pmax := 501 / 25 },
    cost_per_mwh := 10, actual_pmax := 501 / 25 }

/-- Concrete request from the source's own TODO comment: load 110 with two
plants of pmin 20 / pmax 100; the two-pass algorithm reports failure while
the dispatch (90, 20) is feasible. -/
def exTwoPlantReq : ProductionPlanRequest :=
  { load := 110,
    fuels := { gas_euro_per_mwh := 10, kerosine_euro_per_mwh := 10,
               co2_euro_per_ton := 0, wind_percentage := 0 },
    powerplants :=
      [{ name := "A", type := PowerPlantType.GASFIRED,
         efficiency := 1, pmin := 20, pmax := 100 },
       { name := "B", type := PowerPlantType.GASFIRED,
         efficiency := 1, pmin := 20, pmax := 100 }] }

/-- Concrete request with a zero-cost gas plant: gas price 0 and CO2 price
0 make the gas plant's cost 0, tie with the wind plant, and its larger
effective maximum wins the tie, so it is dispatched before the wind plant. -/
def exFreeGasReq : ProductionPlanRequest :=
  { load := 100,
    fuels := { gas_euro_per_mwh := 0, kerosine_euro_per_mwh := 50,
               co2_euro_per_ton := 0, wind_percentage := 100 },
    powerplants :=
      [{ name := "w", type := PowerPlantType.WINDTURBINE,
         efficiency := 1, pmin := 0, pmax := 50 },
       { name := "g", type := PowerPlantType.GASFIRED,
         efficiency := 1, pmin := 0, pmax := 100 }] }

/-- Concrete request with two plants named `a`: a cheap gas plant that the
greedy pass leaves idle and an expensive turbojet that later overwrites the
shared dictionary entry. -/
def exDupReq : ProductionPlanRequest :=
  { load := 130,
    fuels := { gas_euro_per_mwh := 10, kerosine_euro_per_mwh := 50,
               co2_euro_per_ton := 0, wind_percentage := 100 },
    powerplants :=
      [{ name := "a", type := PowerPlantType.GASFIRED,
         efficiency := 1, pmin := 50, pmax := 60 },
       { name := "b", type := PowerPlantType.WINDTURBINE,
         efficiency := 1, pmin := 0, pmax := 100 },
       { name := "a", type := PowerPlantType.TURBOJET,
         efficiency := 1, pmin := 0, pmax := 100 }] }

section RoundLemmas

lemma floor_le_pyRound (x : ℚ) : ⌊x⌋ ≤ pyRound x := by
  unfold pyRound; split_ifs <;> omega

lemma pyRound_le_floor_add_one (x : ℚ) : pyRound x ≤ ⌊x⌋ + 1 := by
  unfold pyRound; split_ifs <;> omega

lemma pyRound_le (x : ℚ) : (pyRound x : ℚ) ≤ x + 1 / 2 := by
  unfold pyRound
  have hfl : (⌊x⌋ : ℚ) ≤ x := Int.floor_le x
  split_ifs with h1 h2 h3 <;> push_cast <;> linarith

lemma le_pyRound (x : ℚ) : x - 1 / 2 ≤ (pyRound x : ℚ) := by
  unfold pyRound
  have hfl : x - 1 < (⌊x⌋ : ℚ) := Int.sub_one_lt_floor x
  split_ifs with h1 h2 h3 <;> push_cast <;> linarith

lemma pyRound_intCast (k : ℤ) : pyRound (k : ℚ) = k := by
  unfold pyRound
  rw [Int.floor_intCast]
  simp

lemma pyRound_mono {x y : ℚ} (h : x ≤ y) : pyRound x ≤ pyRound y := by
  rcases lt_or_le ⌊x⌋ ⌊y⌋ with hf | hf
  · have h1 := pyRound_le_floor_add_one x
    have h2 := floor_le_pyRound y
    omega
  · have hf2 : ⌊x⌋ ≤ ⌊y⌋ := Int.floor_le_floor h
    have hf3 : ⌊x⌋ = ⌊y⌋ := le_antisymm hf2 hf
    unfold pyRound
    rw [← hf3]
    split_ifs <;> first | omega | linarith

lemma round1_le (x : ℚ) : round1 x ≤ x + 1 / 20 := by
  have h := pyRound_le (10 * x)
  unfold round1
  linarith

lemma le_round1 (x : ℚ) : x - 1 / 20 ≤ round1 x := by
  have h := le_pyRound (10 * x)
  unfold round1
  linarith

lemma round1_mono {x y : ℚ} (h : x ≤ y) : round1 x ≤ round1 y := by
  have := pyRound_mono (by linarith : 10 * x ≤ 10 * y)
  unfold round1
  have : (pyRound (10 * x) : ℚ) ≤ (pyRound (10 * y) : ℚ) := by exact_mod_cast this
  linarith

lemma tenth_iff (q : ℚ) : Tenth q ↔ ∃ k : ℤ, q = (k : ℚ) / 10 := by
  constructor
  · intro h
    refine ⟨(10 * q).num, ?_⟩
    have h2 : (((10 * q).num : ℚ)) = 10 * q := (Rat.den_eq_one_iff _).mp h
    field_simp
    linarith
  · rintro ⟨k, rfl⟩
    unfold Tenth
    have h10 : (10 : ℚ) ≠ 0 := by norm_num
    have : 10 * ((k : ℚ) / 10) = (k : ℚ) := by field_simp
    rw [this, Rat.den_intCast]

lemma Tenth_round1 (x : ℚ) : Tenth (round1 x) := by
  rw [tenth_iff]
  exact ⟨pyRound (10 * x), rfl⟩

lemma Tenth_zero : Tenth 0 := by
  rw [tenth_iff]; exact ⟨0, by norm_num⟩

lemma round1_tenth {q : ℚ} (h : Tenth q) : round1 q = q := by
  rw [tenth_iff] at h
  obtain ⟨k, rfl⟩ := h
  unfold round1
  have h10 : (10 : ℚ) ≠ 0 := by norm_num
  have h1 : 10 * ((k : ℚ) / 10) = (k : ℚ) := by field_simp
  rw [h1, pyRound_intCast]

lemma round1_zero : round1 0 = 0 := round1_tenth Tenth_zero

lemma tenth_pos_ge {q : ℚ} (h : Tenth q) (h0 : 0 < q) : 1 / 10 ≤ q := by
  rw [tenth_iff] at h
  obtain ⟨k, rfl⟩ := h
  have hke : (k : ℚ) = 10 * ((k : ℚ) / 10) := by ring
  have hk : 0 < (k : ℚ) := by linarith
  have hk1 : (1 : ℤ) ≤ k := by exact_mod_cast hk
  have : (1 : ℚ) ≤ (k : ℚ) := by exact_mod_cast hk1
  linarith

end RoundLemmas

section DictLemmas

lemma dictKeys_nil : dictKeys ([] : List (String × ℚ)) = [] := rfl

lemma dictKeys_cons (e : String × ℚ) (rest : List (String × ℚ)) :
    dictKeys (e :: rest) = e.1 :: dictKeys rest := rfl

lemma dictGet_cons (e : String × ℚ) (rest : List (String × ℚ)) (k : String) :
    dictGet (e :: rest) k = if e.1 = k then some e.2 else dictGet rest k := rfl

lemma dictInsert_cons_eq (e : String × ℚ) (rest : List (String × ℚ)) {k : String}
    (v : ℚ) (h : e.1 = k) : dictInsert (e :: rest) k v = (k, v) :: rest := by
  simp [dictInsert, h]

lemma dictInsert_cons_ne (e : String × ℚ) (rest : List (String × ℚ)) {k : String}
    (v : ℚ) (h : ¬ e.1 = k) : dictInsert (e :: rest) k v = e :: dictInsert rest k v := by
  simp [dictInsert, h]

lemma dictGet_insert_self (d : List (String × ℚ)) (k : String) (v : ℚ) :
    dictGet (dictInsert d k v) k = some v := by
  induction d with
  | nil => simp [dictInsert, dictGet]
  | cons e rest ih =>
    by_cases h : e.1 = k
    · rw [dictInsert_cons_eq e rest v h, dictGet_cons]
      simp
    · rw [dictInsert_cons_ne e rest v h, dictGet_cons, if_neg h]
      exact ih

lemma dictGet_insert_ne (d : List (String × ℚ)) {k q : String} (v : ℚ) (h : q ≠ k) :
    dictGet (dictInsert d k v) q = dictGet d q := by
  have hkq : ¬ k = q := fun hh => h hh.symm
  induction d with
  | nil => simp [dictInsert, dictGet, hkq]
  | cons e rest ih =>
    by_cases he : e.1 = k
    · rw [dictInsert_cons_eq e rest v he, dictGet_cons, dictGet_cons, if_neg hkq]
      have heq : ¬ e.1 = q := by rw [he]; exact hkq
      rw [if_neg heq]
    · rw [dictInsert_cons_ne e rest v he, dictGet_cons, dictGet_cons]
      by_cases hq : e.1 = q
      · rw [if_pos hq, if_pos hq]
      · rw [if_neg hq, if_neg hq, ih]

lemma dictKeys_insert_mem (d : List (String × ℚ)) {k : String} (v : ℚ)
    (h : k ∈ dictKeys d) : dictKeys (dictInsert d k v) = dictKeys d := by
  induction d with
  | nil => simp [dictKeys] at h
  | cons e rest ih =>
    by_cases he : e.1 = k
    · rw [dictInsert_cons_eq e rest v he, dictKeys_cons, dictKeys_cons, he]
    · have hmem : k ∈ dictKeys rest := by
        rw [dictKeys_cons] at h
        rcases List.mem_cons.mp h with h | h
        · exact absurd h.symm he
        · exact h
      rw [dictInsert_cons_ne e rest v he, dictKeys_cons, dictKeys_cons, ih hmem]

lemma dictKeys_insert_not_mem (d : List (String × ℚ)) {k : String} (v : ℚ)
    (h : k ∉ dictKeys d) : dictKeys (dictInsert d k v) = dictKeys d ++ [k] := by
  induction d with
  | nil => simp [dictInsert, dictKeys]
  | cons e rest ih =>
    have he : ¬ e.1 = k := by
      intro hh
      exact h (by rw [dictKeys_cons, hh]; exact List.mem_cons_self k _)
    have hmem : k ∉ dictKeys rest := by
      intro hh
      exact h (by rw [dictKeys_cons]; exact List.mem_cons_of_mem e.1 hh)
    rw [dictInsert_cons_ne e rest v he, dictKeys_cons, dictKeys_cons, ih hmem,
      List.cons_append]

lemma dictKeys_insert_nodup (d : List (String × ℚ)) (k : String) (v : ℚ)
    (h : (dictKeys d).Nodup) : (dictKeys (dictInsert d k v)).Nodup := by
  by_cases hk : k ∈ dictKeys d
  · rw [dictKeys_insert_mem d v hk]; exact h
  · rw [dictKeys_insert_not_mem d v hk]
    simp [List.nodup_append, h, hk]

lemma mem_dictInsert (d : List (String × ℚ)) (k : String) (v : ℚ) (e : String × ℚ)
    (h : e ∈ dictInsert d k v) : e = (k, v) ∨ e ∈ d := by
  induction d with
  | nil =>
    simp [dictInsert] at h
    left; exact h
  | cons e0 rest ih =>
    by_cases he : e0.1 = k
    · rw [dictInsert_cons_eq e0 rest v he] at h
      rcases List.mem_cons.mp h with h | h
      · left; exact h
      · right; exact List.mem_cons_of_mem e0 h
    · rw [dictInsert_cons_ne e0 rest v he] at h
      rcases List.mem_cons.mp h with h | h
      · right; rw [h]; exact List.mem_cons_self e0 rest
      · rcases ih h with h2 | h2
        · left; exact h2
        · right; exact List.mem_cons_of_mem e0 h2

lemma dictGet_mem {d : List (String × ℚ)} {k : String} {v : ℚ}
    (h : dictGet d k = some v) : (k, v) ∈ d := by
  induction d with
  | nil => simp [dictGet] at h
  | cons e rest ih =>
    rw [dictGet_cons] at h
    by_cases he : e.1 = k
    · rw [if_pos he] at h
      have hv : e.2 = v := by injection h
      have : e = (k, v) := Prod.ext he hv
      rw [← this]
      exact List.mem_cons_self e rest
    · rw [if_neg he] at h
      exact List.mem_cons_of_mem e (ih h)

lemma dictGet_isSome_of_mem_keys {d : List (String × ℚ)} {k : String}
    (h : k ∈ dictKeys d) : ∃ v, dictGet d k = some v := by
  induction d with
  | nil => simp [dictKeys] at h
  | cons e rest ih =>
    rw [dictGet_cons]
    by_cases he : e.1 = k
    · exact ⟨e.2, by rw [if_pos he]⟩
    · have hmem : k ∈ dictKeys rest := by
        rw [dictKeys_cons] at h
        rcases List.mem_cons.mp h with h | h
        · exact absurd h.symm he
        · exact h
      obtain ⟨v, hv⟩ := ih hmem
      exact ⟨v, by rw [if_neg he]; exact hv⟩

lemma mem_keys_of_dictGet {d : List (String × ℚ)} {k : String} {v : ℚ}
    (h : dictGet d k = some v) : k ∈ dictKeys d := by
  have hm := dictGet_mem h
  unfold dictKeys
  exact List.mem_map.mpr ⟨(k, v), hm, rfl⟩

/-- With duplicate-free keys, summing `get` over the keys gives the sum of
the values. -/
lemma sum_getD_keys (d : List (String × ℚ)) (h : (dictKeys d).Nodup) :
    ((dictKeys d).map (dictGetD d)).sum = dictValuesSum d := by
  induction d with
  | nil => simp [dictKeys, dictValuesSum]
  | cons e rest ih =>
    rw [dictKeys_cons] at h ⊢
    have hni : e.1 ∉ dictKeys rest := (List.nodup_cons.mp h).1
    have hn : (dictKeys rest).Nodup := (List.nodup_cons.mp h).2
    have hmap : (dictKeys rest).map (dictGetD (e :: rest)) =
        (dictKeys rest).map (dictGetD rest) := by
      apply List.map_congr_left
      intro k hk
      have hne : ¬ e.1 = k := fun hh => hni (hh ▸ hk)
      simp [dictGetD, dictGet_cons, hne]
    rw [List.map_cons, List.sum_cons, hmap, ih hn]
    have hself : dictGetD (e :: rest) e.1 = e.2 := by simp [dictGetD, dictGet_cons]
    rw [hself]
    simp [dictValuesSum]

end DictLemmas

section FoldLemmas

/-- A state invariant preserved by every step survives a fold, tracking
membership of the consumed element in the list. -/
lemma foldl_preserve {α β : Type} (step : β → α → β) (P : β → Prop) :
    ∀ (l : List α) (st : β), (∀ st0 a, a ∈ l → P st0 → P (step st0 a)) →
      P st → P (l.foldl step st)
  | [], st, _, h => h
  | a :: t, st, hstep, h => by
    simp only [List.foldl_cons]
    exact foldl_preserve step P t (step st a)
      (fun st0 b hb => hstep st0 b (List.mem_cons_of_mem a hb))
      (hstep st a (List.mem_cons_self a t) h)

end FoldLemmas

section PassLemmas

/-- Case analysis of one greedy iteration: it always writes the plant's
entry, with 0 or with `round1 available_power`, and only subtracts in the
second case. -/
lemma greedyStep_cases (st : List (String × ℚ) × ℚ) (pwc : PowerPlantWithCost) :
    greedyStep st pwc = (dictInsert st.1 pwc.plant.name 0, st.2) ∨
    (1 / 10 < st.2 ∧ pwc.plant.pmin ≤ min pwc.actual_pmax st.2 ∧
      greedyStep st pwc =
        (dictInsert st.1 pwc.plant.name (round1 (min pwc.actual_pmax st.2)),
         st.2 - round1 (min pwc.actual_pmax st.2))) := by
  unfold greedyStep
  split_ifs with h1 h2
  · left; rfl
  · right; exact ⟨by linarith, h2, rfl⟩
  · left; rfl

/-- Case analysis of one adjustment iteration: it leaves the state alone or
writes the plant's entry with a `round1` value. -/
lemma adjustStep_cases (st : List (String × ℚ) × ℚ) (pwc : PowerPlantWithCost) :
    adjustStep st pwc = st ∨
    ∃ x y, adjustStep st pwc = (dictInsert st.1 pwc.plant.name (round1 x), st.2 - y) := by
  unfold adjustStep
  split_ifs with h1 h2 h3 h4
  · left; rfl
  · right
    exact ⟨dictGetD st.1 pwc.plant.name +
        min (pwc.actual_pmax - dictGetD st.1 pwc.plant.name) st.2,
      min (pwc.actual_pmax - dictGetD st.1 pwc.plant.name) st.2, rfl⟩
  · right; exact ⟨min st.2 pwc.actual_pmax, min st.2 pwc.actual_pmax, rfl⟩
  · left; rfl
  · left; rfl

lemma mem_keys_insert_self (d : List (String × ℚ)) (k : String) (v : ℚ) :
    k ∈ dictKeys (dictInsert d k v) :=
  mem_keys_of_dictGet (dictGet_insert_self d k v)

lemma mem_keys_insert (d : List (String × ℚ)) (q : String) (v : ℚ) {k : String}
    (h : k ∈ dictKeys d) : k ∈ dictKeys (dictInsert d q v) := by
  by_cases hq : q ∈ dictKeys d
  · rw [dictKeys_insert_mem d v hq]; exact h
  · rw [dictKeys_insert_not_mem d v hq]
    exact List.mem_append_left _ h

/-- Keys already present survive the whole greedy pass. -/
lemma greedy_keys_sub (l : List PowerPlantWithCost) (st : List (String × ℚ) × ℚ)
    {k : String} (h : k ∈ dictKeys st.1) :
    k ∈ dictKeys ((l.foldl greedyStep st).1) := by
  apply foldl_preserve greedyStep (fun st0 => k ∈ dictKeys st0.1) l st _ h
  intro st0 a _ hk
  rcases greedyStep_cases st0 a with hc | ⟨_, _, hc⟩ <;>
    · rw [hc]; exact mem_keys_insert _ _ _ hk

/-- After the greedy pass every plant of the list has an entry. -/
lemma greedy_mem_keys (l : List PowerPlantWithCost) :
    ∀ (st : List (String × ℚ) × ℚ) (pwc : PowerPlantWithCost), pwc ∈ l →
      pwc.plant.name ∈ dictKeys ((l.foldl greedyStep st).1) := by
  induction l with
  | nil => intro st pwc h; simp at h
  | cons a t ih =>
    intro st pwc h
    rw [List.foldl_cons]
    rcases List.mem_cons.mp h with h | h
    · subst h
      apply greedy_keys_sub
      rcases greedyStep_cases st pwc with hc | ⟨_, _, hc⟩ <;>
        · rw [hc]; exact mem_keys_insert_self _ _ _
    · exact ih (greedyStep st a) pwc h

/-- Entries whose key is not the name of any plant in the list are untouched
by the greedy pass. -/
lemma greedy_get_untouched (l : List PowerPlantWithCost) :
    ∀ (st : List (String × ℚ) × ℚ) (k : String), (∀ pwc ∈ l, pwc.plant.name ≠ k) →
      dictGet ((l.foldl greedyStep st).1) k = dictGet st.1 k := by
  induction l with
  | nil => intro st k _; rfl
  | cons a t ih =>
    intro st k h
    rw [List.foldl_cons]
    have hne : k ≠ a.plant.name := fun hh => h a (List.mem_cons_self a t) hh.symm
    have hstep : dictGet (greedyStep st a).1 k = dictGet st.1 k := by
      rcases greedyStep_cases st a with hc | ⟨_, _, hc⟩ <;>
        · rw [hc]; exact dictGet_insert_ne _ _ hne
    rw [ih (greedyStep st a) k (fun pwc hp => h pwc (List.mem_cons_of_mem a hp)), hstep]

/-- Entries whose key is not the name of any plant in the list are untouched
by the adjustment pass. -/
lemma adjust_get_untouched (l : List PowerPlantWithCost) :
    ∀ (st : List (String × ℚ) × ℚ) (k : String), (∀ pwc ∈ l, pwc.plant.name ≠ k) →
      dictGet ((l.foldl adjustStep st).1) k = dictGet st.1 k := by
  induction l with
  | nil => intro st k _; rfl
  | cons a t ih =>
    intro st k h
    rw [List.foldl_cons]
    have hne : k ≠ a.plant.name := fun hh => h a (List.mem_cons_self a t) hh.symm
    have hstep : dictGet (adjustStep st a).1 k = dictGet st.1 k := by
      rcases adjustStep_cases st a with hc | ⟨x, y, hc⟩
      · rw [hc]
      · rw [hc]; exact dictGet_insert_ne _ _ hne
    rw [ih (adjustStep st a) k (fun pwc hp => h pwc (List.mem_cons_of_mem a hp)), hstep]

/-- Starting from disjoint keys, the greedy pass appends exactly the plant
names, in merit order, to the key list. -/
lemma greedy_keys_eq (l : List PowerPlantWithCost) :
    ∀ (st : List (String × ℚ) × ℚ),
      (l.map (fun pwc => pwc.plant.name)).Nodup →
      (∀ n ∈ l.map (fun pwc => pwc.plant.name), n ∉ dictKeys st.1) →
      dictKeys ((l.foldl greedyStep st).1) =
        dictKeys st.1 ++ l.map (fun pwc => pwc.plant.name) := by
  induction l with
  | nil => intro st _ _; simp
  | cons a t ih =>
    intro st hnd hdisj
    rw [List.foldl_cons, List.map_cons]
    have hna : a.plant.name ∉ dictKeys st.1 :=
      hdisj a.plant.name (by rw [List.map_cons]; exact List.mem_cons_self _ _)
    have hkeys : dictKeys (greedyStep st a).1 = dictKeys st.1 ++ [a.plant.name] := by
      rcases greedyStep_cases st a with hc | ⟨_, _, hc⟩ <;>
        · rw [hc]; exact dictKeys_insert_not_mem _ _ hna
    have hnd2 : (t.map (fun pwc => pwc.plant.name)).Nodup := by
      rw [List.map_cons] at hnd
      exact (List.nodup_cons.mp hnd).2
    have hdisj2 : ∀ n ∈ t.map (fun pwc => pwc.plant.name),
        n ∉ dictKeys (greedyStep st a).1 := by
      intro n hn
      rw [hkeys]
      intro hmem
      rcases List.mem_append.mp hmem with hmem | hmem
      · exact hdisj n (by rw [List.map_cons]; exact List.mem_cons_of_mem _ hn) hmem
      · rw [List.map_cons] at hnd
        have : n = a.plant.name := List.mem_singleton.mp hmem
        exact (List.nodup_cons.mp hnd).1 (this ▸ hn)
    rw [ih (greedyStep st a) hnd2 hdisj2, hkeys, List.append_assoc, List.singleton_append]

/-- The adjustment pass never changes the key list once every plant name is
already a key. -/
lemma adjust_keys_fixed (l : List PowerPlantWithCost) :
    ∀ (st : List (String × ℚ) × ℚ),
      (∀ pwc ∈ l, pwc.plant.name ∈ dictKeys st.1) →
      dictKeys ((l.foldl adjustStep st).1) = dictKeys st.1 := by
  induction l with
  | nil => intro st _; rfl
  | cons a t ih =>
    intro st h
    rw [List.foldl_cons]
    have hkeys : dictKeys (adjustStep st a).1 = dictKeys st.1 := by
      rcases adjustStep_cases st a with hc | ⟨x, y, hc⟩
      · rw [hc]
      · rw [hc]
        exact dictKeys_insert_mem _ _ (h a (List.mem_cons_self a t))
    rw [ih (adjustStep st a) (fun pwc hp => hkeys ▸ h pwc (List.mem_cons_of_mem a hp)), hkeys]

/-- All allocation values are multiples of one tenth after the greedy pass. -/
lemma greedy_values_tenth (l : List PowerPlantWithCost) (st : List (String × ℚ) × ℚ)
    (h : ∀ e ∈ st.1, Tenth e.2) : ∀ e ∈ ((l.foldl greedyStep st).1), Tenth e.2 := by
  apply foldl_preserve greedyStep (fun st0 => ∀ e ∈ st0.1, Tenth e.2) l st _ h
  intro st0 a _ hP e he
  rcases greedyStep_cases st0 a with hc | ⟨_, _, hc⟩ <;>
    rw [hc] at he <;>
    rcases mem_dictInsert _ _ _ _ he with h2 | h2
  · rw [h2]; exact Tenth_zero
  · exact hP e h2
  · rw [h2]; exact Tenth_round1 _
  · exact hP e h2

/-- All allocation values remain multiples of one tenth through the
adjustment pass. -/
lemma adjust_values_tenth (l : List PowerPlantWithCost) (st : List (String × ℚ) × ℚ)
    (h : ∀ e ∈ st.1, Tenth e.2) : ∀ e ∈ ((l.foldl adjustStep st).1), Tenth e.2 := by
  apply foldl_preserve adjustStep (fun st0 => ∀ e ∈ st0.1, Tenth e.2) l st _ h
  intro st0 a _ hP e he
  rcases adjustStep_cases st0 a with hc | ⟨x, y, hc⟩
  · rw [hc] at he; exact hP e he
  · rw [hc] at he
    rcases mem_dictInsert _ _ _ _ he with h2 | h2
    · rw [h2]; exact Tenth_round1 _
    · exact hP e h2

/-- Keys stay duplicate-free through the greedy pass. -/
lemma greedy_keys_nodup (l : List PowerPlantWithCost) (st : List (String × ℚ) × ℚ)
    (h : (dictKeys st.1).Nodup) : (dictKeys ((l.foldl greedyStep st).1)).Nodup := by
  apply foldl_preserve greedyStep (fun st0 => (dictKeys st0.1).Nodup) l st _ h
  intro st0 a _ hP
  rcases greedyStep_cases st0 a with hc | ⟨_, _, hc⟩ <;>
    · rw [hc]; exact dictKeys_insert_nodup _ _ _ hP

/-- Keys stay duplicate-free through the adjustment pass. -/
lemma adjust_keys_nodup (l : List PowerPlantWithCost) (st : List (String × ℚ) × ℚ)
    (h : (dictKeys st.1).Nodup) : (dictKeys ((l.foldl adjustStep st).1)).Nodup := by
  apply foldl_preserve adjustStep (fun st0 => (dictKeys st0.1).Nodup) l st _ h
  intro st0 a _ hP
  rcases adjustStep_cases st0 a with hc | ⟨x, y, hc⟩
  · rw [hc]; exact hP
  · rw [hc]; exact dictKeys_insert_nodup _ _ _ hP

end PassLemmas

section CostLemmas

/-- The cost model never raises: it returns the per-category formula. -/
lemma calculate_cost_per_mwh_eq (fuels : Fuels) (plant : PowerPlant) :
    calculate_cost_per_mwh fuels plant = Except.ok (costFormula fuels plant) := by
  rcases plant with ⟨name, ptype, eff, pmin, pmax⟩
  cases ptype <;>
    simp [calculate_cost_per_mwh, fuelCostOf, costFormula, CO2_EMISSIONS_PER_MWH]

/-- The cost-building loop succeeds on every plant list and is the map of
`toCosted` over it. -/
lemma buildPlantsWithCost_eq (fuels : Fuels) (ps : List PowerPlant) :
    buildPlantsWithCost fuels ps = Except.ok (ps.map (toCosted fuels)) := by
  induction ps with
  | nil => rfl
  | cons p rest ih =>
    rw [List.map_cons]
    unfold buildPlantsWithCost
    rw [calculate_cost_per_mwh_eq, ih]
    rfl

end CostLemmas

section PipelineLemmas

lemma calculate_production_plan_eq (req : ProductionPlanRequest) :
    calculate_production_plan req =
      match allocate_power req.load (rankedPlants req) with
      | Except.error e => Except.error e
      | Except.ok allocation => Except.ok (req.powerplants.map (fun plant =>
          { name := plant.name, p := round1 (dictGetD allocation plant.name) })) := by
  unfold calculate_production_plan rankedPlants costedPlants
  rw [buildPlantsWithCost_eq]

lemma allocate_power_eq (load : ℚ) (l : List PowerPlantWithCost) :
    allocate_power load l =
      if 1 / 10 < |dictValuesSum (resultingAllocation load l) - load| then
        Except.error (CalcError.loadNotMet load (dictValuesSum (resultingAllocation load l)))
      else Except.ok (resultingAllocation load l) := rfl

/-- A successful plan is built from the final allocation, which passed the
conservation check. -/
lemma plan_ok (req : ProductionPlanRequest) (resp : List PowerPlantOutput)
    (h : calculate_production_plan req = Except.ok resp) :
    resp = req.powerplants.map (fun plant =>
        { name := plant.name, p := round1 (dictGetD (finalAllocation req) plant.name) }) ∧
    |dictValuesSum (finalAllocation req) - req.load| ≤ 1 / 10 := by
  rw [calculate_production_plan_eq, allocate_power_eq] at h
  by_cases hcheck :
      1 / 10 < |dictValuesSum (resultingAllocation req.load (rankedPlants req)) - req.load|
  · rw [if_pos hcheck] at h
    simp at h
  · rw [if_neg hcheck] at h
    simp at h
    exact ⟨h.symm, le_of_not_lt hcheck⟩

/-- A failing plan can only raise `loadNotMet`, with the request's load as
the required total. -/
lemma plan_error (req : ProductionPlanRequest) (e : CalcError)
    (h : calculate_production_plan req = Except.error e) :
    e = CalcError.loadNotMet req.load (dictValuesSum (finalAllocation req)) := by
  rw [calculate_production_plan_eq, allocate_power_eq] at h
  by_cases hcheck :
      1 / 10 < |dictValuesSum (resultingAllocation req.load (rankedPlants req)) - req.load|
  · rw [if_pos hcheck] at h
    simp at h
    exact h.symm
  · rw [if_neg hcheck] at h
    simp at h

lemma ranked_perm (req : ProductionPlanRequest) :
    (rankedPlants req).Perm (costedPlants req) :=
  List.perm_insertionSort meritOrder (costedPlants req)

lemma costed_names (req : ProductionPlanRequest) :
    (costedPlants req).map (fun pwc => pwc.plant.name) =
      req.powerplants.map PowerPlant.name := by
  unfold costedPlants
  rw [List.map_map]
  rfl

lemma ranked_names_perm (req : ProductionPlanRequest) :
    ((rankedPlants req).map (fun pwc => pwc.plant.name)).Perm
      (req.powerplants.map PowerPlant.name) := by
  rw [← costed_names]
  exact (ranked_perm req).map _

/-- Key and value facts about the final allocation of a request with
duplicate-free plant names: its keys are exactly the plant names (in merit
order) and all its values are multiples of one tenth. -/
lemma finalAllocation_facts (req : ProductionPlanRequest)
    (hnd : (req.powerplants.map PowerPlant.name).Nodup) :
    dictKeys (finalAllocation req) =
        (rankedPlants req).map (fun pwc => pwc.plant.name) ∧
    (∀ e ∈ finalAllocation req, Tenth e.2) := by
  have hndS : ((rankedPlants req).map (fun pwc => pwc.plant.name)).Nodup :=
    ((ranked_names_perm req).nodup_iff).mpr hnd
  have hkeysG : dictKeys (greedyPass req.load (rankedPlants req)).1 =
      (rankedPlants req).map (fun pwc => pwc.plant.name) := by
    unfold greedyPass
    rw [greedy_keys_eq (rankedPlants req) ([], req.load) hndS (by intro n _ hc; simp [dictKeys] at hc)]
    simp [dictKeys]
  have htenthG : ∀ e ∈ (greedyPass req.load (rankedPlants req)).1, Tenth e.2 := by
    unfold greedyPass
    exact greedy_values_tenth _ _ (by intro e he; simp at he)
  unfold finalAllocation resultingAllocation
  by_cases hadj : 1 / 10 < |(greedyPass req.load (rankedPlants req)).2|
  · rw [if_pos hadj]
    unfold adjust_allocation
    constructor
    · rw [adjust_keys_fixed (rankedPlants req).reverse
        ((greedyPass req.load (rankedPlants req)).1, (greedyPass req.load (rankedPlants req)).2) ?_]
      · exact hkeysG
      · intro pwc hp
        rw [hkeysG]
        exact List.mem_map.mpr ⟨pwc, List.mem_reverse.mp hp, rfl⟩
    · exact adjust_values_tenth _ _ htenthG
  · rw [if_neg hadj]
    exact ⟨hkeysG, htenthG⟩

/-- With duplicate-free plant names, the total of the emitted plan equals
the total of the final allocation values: every plant name is a key, its
value is already a multiple of one tenth, and summing over the names is
summing over the keys. -/
lemma plan_sum_eq (req : ProductionPlanRequest)
    (hnd : (req.powerplants.map PowerPlant.name).Nodup) :
    ((req.powerplants.map (fun plant =>
        round1 (dictGetD (finalAllocation req) plant.name))).sum) =
      dictValuesSum (finalAllocation req) := by
  obtain ⟨hkeys, htenth⟩ := finalAllocation_facts req hnd
  have hkperm : (dictKeys (finalAllocation req)).Perm
      (req.powerplants.map PowerPlant.name) := by
    rw [hkeys]; exact ranked_names_perm req
  have hknd : (dictKeys (finalAllocation req)).Nodup := hkperm.nodup_iff.mpr hnd
  have hstep1 : req.powerplants.map (fun plant =>
        round1 (dictGetD (finalAllocation req) plant.name)) =
      (req.powerplants.map PowerPlant.name).map (fun n =>
        round1 (dictGetD (finalAllocation req) n)) := by
    rw [List.map_map]
    rfl
  have hstep2 : ∀ n ∈ req.powerplants.map PowerPlant.name,
      round1 (dictGetD (finalAllocation req) n) = dictGetD (finalAllocation req) n := by
    intro n hn
    have hmem : n ∈ dictKeys (finalAllocation req) := (hkperm.mem_iff).mpr hn
    obtain ⟨v, hv⟩ := dictGet_isSome_of_mem_keys hmem
    have hvt : Tenth v := htenth (n, v) (dictGet_mem hv)
    rw [dictGetD, hv]
    exact round1_tenth hvt
  rw [hstep1, List.map_congr_left hstep2]
  have hperm2 : ((req.powerplants.map PowerPlant.name).map
        (dictGetD (finalAllocation req))).Perm
      ((dictKeys (finalAllocation req)).map (dictGetD (finalAllocation req))) :=
    (hkperm.symm).map _
  rw [hperm2.sum_eq]
  exact sum_getD_keys _ hknd

lemma allocate_power_ok {load : ℚ} {l : List PowerPlantWithCost} {d : List (String × ℚ)}
    (h : allocate_power load l = Except.ok d) : d = resultingAllocation load l := by
  rw [allocate_power_eq] at h
  by_cases hc : 1 / 10 < |dictValuesSum (resultingAllocation load l) - load|
  · rw [if_pos hc] at h
    cases h
  · rw [if_neg hc] at h
    injection h with h2
    exact h2.symm

lemma resultingAllocation_keys_nodup (load : ℚ) (l : List PowerPlantWithCost) :
    (dictKeys (resultingAllocation load l)).Nodup := by
  have hg : (dictKeys (greedyPass load l).1).Nodup := by
    unfold greedyPass
    apply greedy_keys_nodup
    simp [dictKeys]
  unfold resultingAllocation
  by_cases h : 1 / 10 < |(greedyPass load l).2|
  · rw [if_pos h]
    unfold adjust_allocation
    exact adjust_keys_nodup _ _ hg
  · rw [if_neg h]
    exact hg

/-- Every entry of a successful plan carries `round1` of the final
allocation's value at its own name: the output is a function of the name. -/
lemma plan_resp_entries (req : ProductionPlanRequest) (resp : List PowerPlantOutput)
    (h : calculate_production_plan req = Except.ok resp) :
    ∀ e ∈ resp, e.p = round1 (dictGetD (finalAllocation req) e.name) := by
  obtain ⟨hresp, _⟩ := plan_ok req resp h
  rw [hresp]
  intro e he
  obtain ⟨p, _, hp⟩ := List.mem_map.mp he
  rw [← hp]

lemma dictGetD_tenth {d : List (String × ℚ)} (k : String) (h : ∀ e ∈ d, Tenth e.2) :
    Tenth (dictGetD d k) := by
  unfold dictGetD
  cases hg : dictGet d k with
  | none => exact Tenth_zero
  | some v => exact h (k, v) (dictGet_mem hg)

/-- The adjustment pass is monotone: it never decreases any entry, as long
as the incoming values are multiples of one tenth (as the greedy pass
produces) and the effective maxima are nonnegative. -/
lemma adjust_allocation_mono (l : List PowerPlantWithCost) (alloc : List (String × ℚ))
    (rem : ℚ) (htenth : ∀ e ∈ alloc, Tenth e.2) (hpos : ∀ pwc ∈ l, 0 ≤ pwc.actual_pmax) :
    ∀ k, dictGetD alloc k ≤ dictGetD (adjust_allocation l alloc rem) k := by
  have hmain : (∀ e ∈ (l.reverse.foldl adjustStep (alloc, rem)).1, Tenth e.2) ∧
      ∀ k, dictGetD alloc k ≤ dictGetD (l.reverse.foldl adjustStep (alloc, rem)).1 k := by
    apply foldl_preserve adjustStep
      (fun st => (∀ e ∈ st.1, Tenth e.2) ∧ ∀ k, dictGetD alloc k ≤ dictGetD st.1 k)
      l.reverse (alloc, rem)
    · intro st a hal hP
      have hpa : 0 ≤ a.actual_pmax := hpos a (List.mem_reverse.mp hal)
      have htenthst : ∀ e ∈ st.1, Tenth e.2 := hP.1
      have hcur : Tenth (dictGetD st.1 a.plant.name) := dictGetD_tenth _ htenthst
      unfold adjustStep
      split_ifs with h1 h2 h3 h4
      · exact hP
      · constructor
        · intro e he
          rcases mem_dictInsert _ _ _ _ he with hE | hE
          · rw [hE]
            exact Tenth_round1 _
          · exact htenthst e hE
        · intro k
          by_cases hk : k = a.plant.name
          · rw [hk]
            have hnew : dictGetD (dictInsert st.1 a.plant.name
                (round1 (dictGetD st.1 a.plant.name +
                  min (a.actual_pmax - dictGetD st.1 a.plant.name) st.2))) a.plant.name =
                round1 (dictGetD st.1 a.plant.name +
                  min (a.actual_pmax - dictGetD st.1 a.plant.name) st.2) := by
              unfold dictGetD
              rw [dictGet_insert_self]
              rfl
            rw [hnew]
            have hmin : 0 ≤ min (a.actual_pmax - dictGetD st.1 a.plant.name) st.2 :=
              le_min (by linarith [h3.2]) (le_of_lt h2)
            calc dictGetD alloc a.plant.name ≤ dictGetD st.1 a.plant.name := hP.2 _
              _ = round1 (dictGetD st.1 a.plant.name) := (round1_tenth hcur).symm
              _ ≤ round1 (dictGetD st.1 a.plant.name +
                    min (a.actual_pmax - dictGetD st.1 a.plant.name) st.2) :=
                  round1_mono (by linarith)
          · have hunt : dictGetD (dictInsert st.1 a.plant.name
                (round1 (dictGetD st.1 a.plant.name +
                  min (a.actual_pmax - dictGetD st.1 a.plant.name) st.2))) k =
                dictGetD st.1 k := by
              unfold dictGetD
              rw [dictGet_insert_ne _ _ hk]
            rw [hunt]
            exact hP.2 k
      · constructor
        · intro e he
          rcases mem_dictInsert _ _ _ _ he with hE | hE
          · rw [hE]
            exact Tenth_round1 _
          · exact htenthst e hE
        · intro k
          by_cases hk : k = a.plant.name
          · rw [hk]
            have hnew : dictGetD (dictInsert st.1 a.plant.name
                (round1 (min st.2 a.actual_pmax))) a.plant.name =
                round1 (min st.2 a.actual_pmax) := by
              unfold dictGetD
              rw [dictGet_insert_self]
              rfl
            rw [hnew]
            have hmin : 0 ≤ min st.2 a.actual_pmax := le_min (le_of_lt h2) hpa
            calc dictGetD alloc a.plant.name ≤ dictGetD st.1 a.plant.name := hP.2 _
              _ = 0 := h4.1
              _ = round1 0 := round1_zero.symm
              _ ≤ round1 (min st.2 a.actual_pmax) := round1_mono hmin
          · have hunt : dictGetD (dictInsert st.1 a.plant.name
                (round1 (min st.2 a.actual_pmax))) k = dictGetD st.1 k := by
              unfold dictGetD
              rw [dictGet_insert_ne _ _ hk]
            rw [hunt]
            exact hP.2 k
      · exact hP
      · exact hP
    · exact ⟨htenth, fun k => le_refl _⟩
  exact hmain.2

/-- After the greedy pass, every plant's entry exists and satisfies the
per-plant bound `EntryOk` (0, or within a half-tenth of `[pmin, actual_pmax]`). -/
lemma greedy_writes (l : List PowerPlantWithCost) :
    ∀ (st : List (String × ℚ) × ℚ) (pwc : PowerPlantWithCost), pwc ∈ l →
      (l.map (fun p => p.plant.name)).Nodup →
      ∃ v, dictGet ((l.foldl greedyStep st).1) pwc.plant.name = some v ∧ EntryOk pwc v := by
  induction l with
  | nil =>
    intro st pwc h _
    simp at h
  | cons a t ih =>
    intro st pwc hm hnd
    rw [List.map_cons, List.nodup_cons] at hnd
    rw [List.foldl_cons]
    rcases List.mem_cons.mp hm with hm | hm
    · subst hm
      have hnames : ∀ q ∈ t, q.plant.name ≠ pwc.plant.name := by
        intro q hq hcontra
        exact hnd.1 (hcontra ▸ (List.mem_map.mpr ⟨q, hq, rfl⟩))
      rw [greedy_get_untouched t (greedyStep st pwc) pwc.plant.name hnames]
      rcases greedyStep_cases st pwc with hc | ⟨h1, h2, hc⟩
      · rw [hc]
        exact ⟨0, dictGet_insert_self _ _ _, Tenth_zero, Or.inl rfl⟩
      · rw [hc]
        refine ⟨round1 (min pwc.actual_pmax st.2), dictGet_insert_self _ _ _,
          Tenth_round1 _, Or.inr ⟨?_, ?_⟩⟩
        · have hr := le_round1 (min pwc.actual_pmax st.2)
          have hle : min pwc.plant.pmin pwc.actual_pmax ≤ pwc.plant.pmin := min_le_left _ _
          linarith
        · have hr := round1_le (min pwc.actual_pmax st.2)
          have hle : min pwc.actual_pmax st.2 ≤ pwc.actual_pmax := min_le_left _ _
          linarith
    · exact ih (greedyStep st a) pwc hm hnd.2

/-- The adjustment pass preserves existence and the per-plant bound of
every entry (for a list with duplicate-free names). -/
lemma adjust_entries (l : List PowerPlantWithCost) (alloc : List (String × ℚ)) (rem : ℚ)
    (hnd : (l.map (fun p => p.plant.name)).Nodup)
    (hin : ∀ pwc ∈ l, ∃ v, dictGet alloc pwc.plant.name = some v ∧ EntryOk pwc v) :
    ∀ pwc ∈ l, ∃ v, dictGet (adjust_allocation l alloc rem) pwc.plant.name = some v ∧
      EntryOk pwc v := by
  unfold adjust_allocation
  apply foldl_preserve adjustStep
    (fun st => ∀ pwc ∈ l, ∃ v, dictGet st.1 pwc.plant.name = some v ∧ EntryOk pwc v)
    l.reverse (alloc, rem)
  · intro st a hal hP
    have haml : a ∈ l := List.mem_reverse.mp hal
    unfold adjustStep
    split_ifs with h1 h2 h3 h4
    · exact hP
    · intro pwc hpw
      by_cases hn : pwc.plant.name = a.plant.name
      · have hpa : pwc = a := List.inj_on_of_nodup_map hnd hpw haml hn
        subst hpa
        obtain ⟨cv, hcv, hcvt, hcvb⟩ := hP pwc hpw
        have hcur : dictGetD st.1 pwc.plant.name = cv := by
          unfold dictGetD
          rw [hcv]
          rfl
        rw [hcur] at h3 ⊢
        have hbounds : min pwc.plant.pmin pwc.actual_pmax - 1 / 20 ≤ cv ∧
            cv ≤ pwc.actual_pmax + 1 / 20 := by
          rcases hcvb with hz | hb
          · rw [hz] at h3
            exact absurd h3.1 (lt_irrefl 0)
          · exact hb
        have hinc : 0 ≤ min (pwc.actual_pmax - cv) st.2 :=
          le_min (by linarith [h3.2]) (le_of_lt h2)
        refine ⟨round1 (cv + min (pwc.actual_pmax - cv) st.2), by
            rw [dictGet_insert_self], Tenth_round1 _, Or.inr ⟨?_, ?_⟩⟩
        · have hmono : round1 cv ≤ round1 (cv + min (pwc.actual_pmax - cv) st.2) :=
            round1_mono (by linarith)
          rw [round1_tenth hcvt] at hmono
          linarith [hbounds.1]
        · have hsum : cv + min (pwc.actual_pmax - cv) st.2 ≤ pwc.actual_pmax := by
            have := min_le_left (pwc.actual_pmax - cv) st.2
            linarith
          linarith [round1_le (cv + min (pwc.actual_pmax - cv) st.2)]
      · obtain ⟨v, hv, hok⟩ := hP pwc hpw
        exact ⟨v, by rw [dictGet_insert_ne _ _ hn]; exact hv, hok⟩
    · intro pwc hpw
      by_cases hn : pwc.plant.name = a.plant.name
      · have hpa : pwc = a := List.inj_on_of_nodup_map hnd hpw haml hn
        subst hpa
        have hmin1 : min pwc.plant.pmin pwc.actual_pmax ≤ min st.2 pwc.actual_pmax := by
          apply le_min
          · exact le_trans (min_le_left _ _) h4.2
          · exact min_le_right _ _
        have hmin2 : min st.2 pwc.actual_pmax ≤ pwc.actual_pmax := min_le_right _ _
        refine ⟨round1 (min st.2 pwc.actual_pmax), by
            rw [dictGet_insert_self], Tenth_round1 _, Or.inr ⟨?_, ?_⟩⟩
        · linarith [le_round1 (min st.2 pwc.actual_pmax)]
        · linarith [round1_le (min st.2 pwc.actual_pmax)]
      · obtain ⟨v, hv, hok⟩ := hP pwc hpw
        exact ⟨v, by rw [dictGet_insert_ne _ _ hn]; exact hv, hok⟩
    · exact hP
    · exact hP
  · exact hin

/-- Every plant's entry of the final allocation exists and satisfies the
per-plant bound, for requests with duplicate-free names. -/
lemma final_entries (req : ProductionPlanRequest)
    (hnd : (req.powerplants.map PowerPlant.name).Nodup) :
    ∀ pwc ∈ rankedPlants req, ∃ v, dictGet (finalAllocation req) pwc.plant.name = some v ∧
      EntryOk pwc v := by
  have hndS : ((rankedPlants req).map (fun p => p.plant.name)).Nodup :=
    ((ranked_names_perm req).nodup_iff).mpr hnd
  have hG : ∀ pwc ∈ rankedPlants req,
      ∃ v, dictGet (greedyPass req.load (rankedPlants req)).1 pwc.plant.name = some v ∧
        EntryOk pwc v := by
    intro pwc hm
    exact greedy_writes (rankedPlants req) ([], req.load) pwc hm hndS
  unfold finalAllocation resultingAllocation
  by_cases hadj : 1 / 10 < |(greedyPass req.load (rankedPlants req)).2|
  · rw [if_pos hadj]
    exact adjust_entries (rankedPlants req) _ _ hndS hG
  · rw [if_neg hadj]
    exact hG

end PipelineLemmas

section WindLemmas

lemma greedyStep_pair (alloc : List (String × ℚ)) (rem : ℚ) (pwc : PowerPlantWithCost) :
    greedyStep (alloc, rem) pwc =
      if rem ≤ 1 / 10 then (dictInsert alloc pwc.plant.name 0, rem)
      else if pwc.plant.pmin ≤ min pwc.actual_pmax rem then
        (dictInsert alloc pwc.plant.name (round1 (min pwc.actual_pmax rem)),
         rem - round1 (min pwc.actual_pmax rem))
      else (dictInsert alloc pwc.plant.name 0, rem) := rfl

lemma costFormula_wind (fuels : Fuels) (p : PowerPlant)
    (h : p.type = PowerPlantType.WINDTURBINE) : costFormula fuels p = 0 := by
  unfold costFormula
  rw [h]

lemma costFormula_pos (fuels : Fuels) (p : PowerPlant) (heff : 0 < p.efficiency)
    (hgas : 0 < fuels.gas_euro_per_mwh + fuels.co2_euro_per_ton * (3 / 10))
    (hker : 0 < fuels.kerosine_euro_per_mwh + fuels.co2_euro_per_ton * (3 / 10))
    (h : p.type ≠ PowerPlantType.WINDTURBINE) : 0 < costFormula fuels p := by
  unfold costFormula
  cases htype : p.type with
  | WINDTURBINE => exact absurd htype h
  | GASFIRED =>
    have he : fuels.gas_euro_per_mwh / p.efficiency +
        fuels.co2_euro_per_ton * (3 / 10) / p.efficiency =
        (fuels.gas_euro_per_mwh + fuels.co2_euro_per_ton * (3 / 10)) / p.efficiency := by
      ring
    rw [he]
    exact div_pos hgas heff
  | TURBOJET =>
    have he : fuels.kerosine_euro_per_mwh / p.efficiency +
        fuels.co2_euro_per_ton * (3 / 10) / p.efficiency =
        (fuels.kerosine_euro_per_mwh + fuels.co2_euro_per_ton * (3 / 10)) / p.efficiency := by
      ring
    rw [he]
    exact div_pos hker heff

lemma mem_ranked {req : ProductionPlanRequest} {pwc : PowerPlantWithCost}
    (h : pwc ∈ rankedPlants req) : ∃ p ∈ req.powerplants, pwc = toCosted req.fuels p := by
  have h2 : pwc ∈ costedPlants req := (ranked_perm req).mem_iff.mp h
  unfold costedPlants at h2
  obtain ⟨p, hp, hpe⟩ := List.mem_map.mp h2
  exact ⟨p, hp, hpe.symm⟩

/-- With strictly positive fossil prices, the merit order places every wind
plant before every non-wind plant. -/
lemma ranked_wind_first (req : ProductionPlanRequest) (hval : req.Valid)
    (hgas : 0 < req.fuels.gas_euro_per_mwh + req.fuels.co2_euro_per_ton * (3 / 10))
    (hker : 0 < req.fuels.kerosine_euro_per_mwh + req.fuels.co2_euro_per_ton * (3 / 10)) :
    (rankedPlants req).Pairwise windFirst := by
  have hsorted : (rankedPlants req).Sorted meritOrder :=
    List.sorted_insertionSort meritOrder (costedPlants req)
  apply List.Pairwise.imp_of_mem ?_ hsorted
  intro a b ha hb hm hbw
  by_contra haw
  obtain ⟨pa, hpa, hae⟩ := mem_ranked ha
  obtain ⟨pb, hpb, hbe⟩ := mem_ranked hb
  have hpav : pa.Valid := hval.2.2.2 pa hpa
  have hca : 0 < a.cost_per_mwh := by
    rw [hae]
    exact costFormula_pos req.fuels pa hpav.1 hgas hker (by rw [hae] at haw; exact haw)
  have hcb : b.cost_per_mwh = 0 := by
    rw [hbe]
    exact costFormula_wind req.fuels pb (by rw [hbe] at hbw; exact hbw)
  unfold meritOrder at hm
  rcases hm with hm | ⟨hm, _⟩
  · rw [hcb] at hm
    linarith
  · rw [hcb] at hm
    linarith

/-- The greedy pass fills every startable wind plant (pmin at most its
effective max, effective max above tolerance) to exactly its effective
maximum, whenever winds come first, the wind effective maxima are
nonnegative tenths, and their total is at most the remaining load. -/
lemma greedy_wind_full (l : List PowerPlantWithCost) :
    ∀ (rem : ℚ) (st : List (String × ℚ)),
      (l.map (fun p => p.plant.name)).Nodup →
      l.Pairwise windFirst →
      (∀ pwc ∈ l, pwc.plant.type = PowerPlantType.WINDTURBINE →
        Tenth pwc.actual_pmax ∧ 0 ≤ pwc.actual_pmax) →
      ((l.filter (fun pwc => pwc.plant.type = PowerPlantType.WINDTURBINE)).map
          (fun pwc => pwc.actual_pmax)).sum ≤ rem →
      ∀ w ∈ l, w.plant.type = PowerPlantType.WINDTURBINE →
        w.plant.pmin ≤ w.actual_pmax → 1 / 10 < w.actual_pmax →
        dictGet ((l.foldl greedyStep (st, rem)).1) w.plant.name = some w.actual_pmax := by
  induction l with
  | nil =>
    intro rem st _ _ _ _ w hw
    simp at hw
  | cons a t ih =>
    intro rem st hnd hpw hprops hsum w hw hwind hpmin hbig
    rw [List.map_cons, List.nodup_cons] at hnd
    rw [List.foldl_cons]
    have hsum_t_nonneg : 0 ≤ ((t.filter
        (fun pwc => pwc.plant.type = PowerPlantType.WINDTURBINE)).map
        (fun pwc => pwc.actual_pmax)).sum := by
      apply List.sum_nonneg
      intro x hx
      obtain ⟨pwc, hpwc, hxe⟩ := List.mem_map.mp hx
      have hmem_t : pwc ∈ t := List.mem_of_mem_filter hpwc
      have hwindp : pwc.plant.type = PowerPlantType.WINDTURBINE :=
        of_decide_eq_true (List.mem_filter.mp hpwc).2
      rw [← hxe]
      exact (hprops pwc (List.mem_cons_of_mem a hmem_t) hwindp).2
    rcases List.mem_cons.mp hw with hw | hw
    · subst hw
      have hfilter : (w :: t).filter
          (fun pwc => pwc.plant.type = PowerPlantType.WINDTURBINE) =
          w :: t.filter (fun pwc => pwc.plant.type = PowerPlantType.WINDTURBINE) :=
        List.filter_cons_of_pos (decide_eq_true hwind)
      rw [hfilter, List.map_cons, List.sum_cons] at hsum
      have hrem : w.actual_pmax ≤ rem := by linarith
      have hrembig : 1 / 10 < rem := lt_of_lt_of_le hbig hrem
      have havail : min w.actual_pmax rem = w.actual_pmax := min_eq_left hrem
      have hTw := hprops w (List.mem_cons_self w t) hwind
      have hstep : greedyStep (st, rem) w =
          (dictInsert st w.plant.name w.actual_pmax, rem - w.actual_pmax) := by
        rw [greedyStep_pair, if_neg (not_le.mpr hrembig), havail, round1_tenth hTw.1,
          if_pos hpmin]
      rw [hstep]
      have hnames : ∀ q ∈ t, q.plant.name ≠ w.plant.name :=
        fun q hq hc => hnd.1 (hc ▸ List.mem_map.mpr ⟨q, hq, rfl⟩)
      rw [greedy_get_untouched t _ _ hnames]
      exact dictGet_insert_self _ _ _
    · have hpw_t := (List.pairwise_cons.mp hpw).2
      have hprops_t : ∀ pwc ∈ t, pwc.plant.type = PowerPlantType.WINDTURBINE →
          Tenth pwc.actual_pmax ∧ 0 ≤ pwc.actual_pmax :=
        fun pwc hp => hprops pwc (List.mem_cons_of_mem a hp)
      by_cases haw : a.plant.type = PowerPlantType.WINDTURBINE
      · have hfilter : (a :: t).filter
            (fun pwc => pwc.plant.type = PowerPlantType.WINDTURBINE) =
            a :: t.filter (fun pwc => pwc.plant.type = PowerPlantType.WINDTURBINE) :=
          List.filter_cons_of_pos (decide_eq_true haw)
        rw [hfilter, List.map_cons, List.sum_cons] at hsum
        have hTa := hprops a (List.mem_cons_self a t) haw
        rcases greedyStep_cases (st, rem) a with hc | ⟨h1, h2, hc⟩
        · rw [hc]
          have hsum2 : ((t.filter
              (fun pwc => pwc.plant.type = PowerPlantType.WINDTURBINE)).map
              (fun pwc => pwc.actual_pmax)).sum ≤ rem := by
            have := hTa.2
            linarith
          exact ih rem (dictInsert st a.plant.name 0) hnd.2 hpw_t hprops_t hsum2
            w hw hwind hpmin hbig
        · have hr1 : round1 (min a.actual_pmax rem) ≤ a.actual_pmax := by
            calc round1 (min a.actual_pmax rem) ≤ round1 a.actual_pmax :=
                  round1_mono (min_le_left _ _)
              _ = a.actual_pmax := round1_tenth hTa.1
          have hsum2 : ((t.filter
              (fun pwc => pwc.plant.type = PowerPlantType.WINDTURBINE)).map
              (fun pwc => pwc.actual_pmax)).sum ≤ rem - round1 (min a.actual_pmax rem) := by
            linarith
          rw [hc]
          exact ih (rem - round1 (min a.actual_pmax rem))
            (dictInsert st a.plant.name (round1 (min a.actual_pmax rem)))
            hnd.2 hpw_t hprops_t hsum2 w hw hwind hpmin hbig
      · exact absurd ((List.pairwise_cons.mp hpw).1 w hw hwind) haw

/-- The adjustment pass leaves a wind plant running at its effective
maximum untouched. -/
lemma adjust_wind_keep (l : List PowerPlantWithCost) (alloc : List (String × ℚ)) (rem : ℚ)
    (hnd : (l.map (fun p => p.plant.name)).Nodup) (w : PowerPlantWithCost) (hw : w ∈ l)
    (hbig : 1 / 10 < w.actual_pmax)
    (hfull : dictGet alloc w.plant.name = some w.actual_pmax) :
    dictGet (adjust_allocation l alloc rem) w.plant.name = some w.actual_pmax := by
  unfold adjust_allocation
  apply foldl_preserve adjustStep
    (fun st => dictGet st.1 w.plant.name = some w.actual_pmax) l.reverse (alloc, rem) _ hfull
  intro st a hal hP
  have haml : a ∈ l := List.mem_reverse.mp hal
  unfold adjustStep
  split_ifs with h1 h2 h3 h4
  · exact hP
  · by_cases hn : w.plant.name = a.plant.name
    · have hwa : w = a := List.inj_on_of_nodup_map hnd hw haml hn
      rw [← hwa] at h3
      have hcur : dictGetD st.1 w.plant.name = w.actual_pmax := by
        unfold dictGetD
        rw [hP]
        rfl
      rw [hcur] at h3
      exact absurd h3.2 (lt_irrefl _)
    · rw [dictGet_insert_ne _ _ hn]
      exact hP
  · by_cases hn : w.plant.name = a.plant.name
    · have hwa : w = a := List.inj_on_of_nodup_map hnd hw haml hn
      rw [← hwa] at h4
      have hcur : dictGetD st.1 w.plant.name = w.actual_pmax := by
        unfold dictGetD
        rw [hP]
        rfl
      rw [hcur] at h4
      rw [h4.1] at hbig
      exact absurd hbig (by norm_num)
    · rw [dictGet_insert_ne _ _ hn]
      exact hP
  · exact hP
  · exact hP

/-- The total wind effective capacity is the same over the ranked list and
over the request. -/
lemma wind_capacity_eq (req : ProductionPlanRequest) :
    (((rankedPlants req).filter
        (fun pwc => pwc.plant.type = PowerPlantType.WINDTURBINE)).map
      (fun pwc => pwc.actual_pmax)).sum =
    ((req.powerplants.filter (fun p => p.type = PowerPlantType.WINDTURBINE)).map
      (get_actual_pmax req.fuels)).sum := by
  have hperm := (ranked_perm req).filter
    (fun pwc => decide (pwc.plant.type = PowerPlantType.WINDTURBINE))
  have h1 := (hperm.map (fun pwc => pwc.actual_pmax)).sum_eq
  rw [h1]
  unfold costedPlants
  rw [List.filter_map, List.map_map]
  rfl

end WindLemmas

section ConcreteRuns

unseal Rat.inv Rat.mul Rat.add Rat.sub in
lemma exTwoPlantRun : calculate_production_plan exTwoPlantReq =
    Except.error (CalcError.loadNotMet 110 100) := by decide

unseal Rat.inv Rat.mul Rat.add Rat.sub in
lemma exTwoPlantFeasible : FeasibleDispatch exTwoPlantReq [90, 20] := by decide

unseal Rat.inv Rat.mul Rat.add Rat.sub in
lemma exDupRun : calculate_production_plan exDupReq = Except.ok
    [{ name := "a", p := 30 }, { name := "b", p := 100 }, { name := "a", p := 30 }] := by
  decide

unseal Rat.inv Rat.mul Rat.add Rat.sub in
lemma exDupDictSum : dictValuesSum (finalAllocation exDupReq) = 130 := by decide

lemma exDupLoad : exDupReq.load = 130 := rfl

unseal Rat.inv Rat.mul Rat.add Rat.sub in
lemma exDupRespSum : (([{ name := "a", p := 30 }, { name := "b", p := 100 },
    { name := "a", p := 30 }] : List PowerPlantOutput).map PowerPlantOutput.p).sum = 160 := by
  decide

end ConcreteRuns

section Claims

/-- C1: for every valid request with the spec's unique plant names, the
calculator either returns a plan whose outputs sum to the requested load
within 0.1, or raises an error carrying the required total (the load) and
the achieved total; the `Except` result has no partial-success state. -/
theorem claim_c1 (req : ProductionPlanRequest) (hval : req.Valid)
    (hnd : (req.powerplants.map PowerPlant.name).Nodup) :
    (∀ resp, calculate_production_plan req = Except.ok resp →
        |(resp.map PowerPlantOutput.p).sum - req.load| ≤ 1 / 10) ∧
    (∀ e, calculate_production_plan req = Except.error e →
        ∃ achieved, e = CalcError.loadNotMet req.load achieved) := by
  constructor
  · intro resp hok
    obtain ⟨hresp, hcheck⟩ := plan_ok req resp hok
    have hmap : resp.map PowerPlantOutput.p = req.powerplants.map (fun plant =>
        round1 (dictGetD (finalAllocation req) plant.name)) := by
      rw [hresp, List.map_map]
      rfl
    rw [hmap, plan_sum_eq req hnd]
    exact hcheck
  · intro e herr
    exact ⟨_, plan_error req e herr⟩

unseal Rat.inv Rat.mul Rat.add Rat.sub in
/-- Witness for C1 at the spec's first concrete scenario. -/
theorem claim_c1_witness :
    calculate_production_plan exWind1Req =
        Except.ok [{ name := "wind1", p := 100 }] ∧
    |(([{ name := "wind1", p := 100 }] : List PowerPlantOutput).map
        PowerPlantOutput.p).sum - exWind1Req.load| ≤ 1 / 10 := by
  have hok : calculate_production_plan exWind1Req =
      Except.ok [{ name := "wind1", p := 100 }] := by decide
  exact ⟨hok, (claim_c1 exWind1Req (by decide) (by decide)).1 _ hok⟩

/-- C3: for every plant and fuel-price set the cost model returns exactly
the spec's per-category price (0 for wind; fuel price over efficiency plus
`co2_price * 0.3 / efficiency` for gas-fired and turbojet, with the gas
respectively kerosene price), and the effective maximum is `pmax` derated
by the wind percentage for wind and plain `pmax` otherwise. -/
theorem claim_c3 (fuels : Fuels) (plant : PowerPlant) :
    calculate_cost_per_mwh fuels plant = Except.ok (costFormula fuels plant) ∧
    get_actual_pmax fuels plant = effectiveMax fuels plant := by
  refine ⟨calculate_cost_per_mwh_eq fuels plant, ?_⟩
  rcases plant with ⟨name, ptype, eff, pmin, pmax⟩
  cases ptype <;> simp [get_actual_pmax, effectiveMax]

/-- C10: under the closed plant-type enumeration that request validation
guarantees, the cost model never raises: the unknown-plant-type error
branch is unreachable. -/
theorem claim_c10 (fuels : Fuels) (plant : PowerPlant) :
    (∃ c, calculate_cost_per_mwh fuels plant = Except.ok c) ∧
    ∀ e, calculate_cost_per_mwh fuels plant ≠ Except.error e := by
  refine ⟨⟨costFormula fuels plant, calculate_cost_per_mwh_eq fuels plant⟩, ?_⟩
  intro e hc
  rw [calculate_cost_per_mwh_eq] at hc
  cases hc

/-- C6: the merit-order ranking is a permutation of its input, sorted by
cost ascending with ties broken by descending effective maximum, and
plants equal on both keys keep their original input order (the filter at
any fixed key pair is unchanged). -/
theorem claim_c6 (l : List PowerPlantWithCost) :
    (rankPlants l).Perm l ∧
    (rankPlants l).Sorted meritOrder ∧
    ∀ c m : ℚ,
      (rankPlants l).filter (fun p => decide (p.cost_per_mwh = c ∧ p.actual_pmax = m)) =
        l.filter (fun p => decide (p.cost_per_mwh = c ∧ p.actual_pmax = m)) := by
  refine ⟨List.perm_insertionSort meritOrder l, List.sorted_insertionSort meritOrder l, ?_⟩
  intro c m
  set pr := fun p : PowerPlantWithCost => decide (p.cost_per_mwh = c ∧ p.actual_pmax = m) with hpr
  have hmem : ∀ p : PowerPlantWithCost, pr p = true → p.cost_per_mwh = c ∧ p.actual_pmax = m := by
    intro p hp
    rw [hpr] at hp
    exact of_decide_eq_true hp
  have hpw : (l.filter pr).Pairwise meritOrder := by
    apply List.pairwise_of_forall_mem_list
    intro a ha b hb
    have hfa : pr a = true := List.of_mem_filter ha
    have hfb : pr b = true := List.of_mem_filter hb
    obtain ⟨hac, ham⟩ := hmem a hfa
    obtain ⟨hbc, hbm⟩ := hmem b hfb
    exact Or.inr ⟨hac.trans hbc.symm, le_of_eq (hbm.trans ham.symm)⟩
  have hsub : (l.filter pr).Sublist (rankPlants l) :=
    List.sublist_insertionSort hpw (List.filter_sublist l)
  have hsub2 : (l.filter pr).Sublist ((rankPlants l).filter pr) := by
    have h2 := hsub.filter pr
    have hself : (l.filter pr).filter pr = l.filter pr := by
      apply List.filter_eq_self.mpr
      intro a ha
      exact List.of_mem_filter ha
    rwa [hself] at h2
  have hlen : ((rankPlants l).filter pr).length = (l.filter pr).length :=
    ((List.perm_insertionSort meritOrder l).filter pr).length_eq
  exact (hsub2.eq_of_length hlen.symm).symm

/-- C4: each greedy iteration assigns 0 when the remaining load is within
tolerance, otherwise assigns `round(available, 1)` and subtracts exactly
that amount when `available = min(effective_max, remaining)` clears the
plant's pmin, and assigns 0 without touching the remaining load when it
does not; and after the pass every plant of the list has an entry. -/
theorem claim_c4 :
    (∀ (alloc : List (String × ℚ)) (rem : ℚ) (pwc : PowerPlantWithCost),
      (rem ≤ 1 / 10 → greedyStep (alloc, rem) pwc = (dictInsert alloc pwc.plant.name 0, rem)) ∧
      (1 / 10 < rem → pwc.plant.pmin ≤ min pwc.actual_pmax rem →
        greedyStep (alloc, rem) pwc =
          (dictInsert alloc pwc.plant.name (round1 (min pwc.actual_pmax rem)),
           rem - round1 (min pwc.actual_pmax rem))) ∧
      (1 / 10 < rem → min pwc.actual_pmax rem < pwc.plant.pmin →
        greedyStep (alloc, rem) pwc = (dictInsert alloc pwc.plant.name 0, rem))) ∧
    (∀ (load : ℚ) (l : List PowerPlantWithCost) (pwc : PowerPlantWithCost), pwc ∈ l →
        pwc.plant.name ∈ dictKeys (greedyPass load l).1) := by
  constructor
  · intro alloc rem pwc
    refine ⟨?_, ?_, ?_⟩
    · intro h
      unfold greedyStep
      rw [if_pos h]
    · intro h1 h2
      unfold greedyStep
      rw [if_neg (by simp only [not_le]; exact h1), if_pos h2]
    · intro h1 h2
      unfold greedyStep
      rw [if_neg (by simp only [not_le]; exact h1), if_neg (by exact not_le.mpr h2)]
  · intro load l pwc hm
    exact greedy_mem_keys l ([], load) pwc hm

unseal Rat.inv Rat.mul Rat.add Rat.sub in
/-- Witness for C4 on a concrete state and plant. -/
theorem claim_c4_witness :
    greedyStep ([], 5) exAdjustPlant =
      (dictInsert [] exAdjustPlant.plant.name (round1 (min exAdjustPlant.actual_pmax 5)),
       5 - round1 (min exAdjustPlant.actual_pmax 5)) ∧
    exAdjustPlant.plant.name ∈ dictKeys (greedyPass 5 [exAdjustPlant]).1 := by
  constructor
  · exact ((claim_c4.1 [] 5 exAdjustPlant).2.1 (by norm_num) (by decide))
  · exact claim_c4.2 5 [exAdjustPlant] exAdjustPlant (List.mem_cons_self _ _)

/-- C7: the adjustment pass never decreases any plant's allocation (for the
tenth-granular allocations the greedy pass produces, with nonnegative
effective maxima), and therefore the source's own TODO example — load 110
over two plants with pmin 20 and pmax 100 — is reported infeasible
(LoadNotMet with required 110, achieved 100) although the dispatch
(90, 20) is feasible. -/
theorem claim_c7 :
    (∀ (l : List PowerPlantWithCost) (alloc : List (String × ℚ)) (rem : ℚ),
        (∀ e ∈ alloc, Tenth e.2) → (∀ pwc ∈ l, 0 ≤ pwc.actual_pmax) →
        ∀ k, dictGetD alloc k ≤ dictGetD (adjust_allocation l alloc rem) k) ∧
    (calculate_production_plan exTwoPlantReq =
        Except.error (CalcError.loadNotMet 110 100) ∧
      FeasibleDispatch exTwoPlantReq [90, 20]) := by
  refine ⟨adjust_allocation_mono, ?_, ?_⟩
  · exact exTwoPlantRun
  · exact exTwoPlantFeasible

unseal Rat.inv Rat.mul Rat.add Rat.sub in
/-- Witness for C7's monotonicity at a concrete reachable state. -/
theorem claim_c7_witness :
    dictGetD [("a", 20)] "a" ≤
      dictGetD (adjust_allocation [exAdjustPlant] [("a", 20)] 5) "a" :=
  claim_c7.1 [exAdjustPlant] [("a", 20)] 5 (by decide) (by decide) "a"

/-- C9: the allocation dictionary keyed by name has duplicate-free keys (a
duplicate plant name collapses to one entry), a later write overwrites the
entry, all response entries sharing a name carry the same value, and on the
concrete duplicate-name request the conservation check sums the name once
(dict total 130 = load) while the emitted plan repeats it (plan total 160). -/
theorem claim_c9 :
    (∀ (load : ℚ) (l : List PowerPlantWithCost) (d : List (String × ℚ)),
        allocate_power load l = Except.ok d → (dictKeys d).Nodup) ∧
    (∀ (d : List (String × ℚ)) (k : String) (v : ℚ),
        dictGet (dictInsert d k v) k = some v) ∧
    (∀ (req : ProductionPlanRequest) (resp : List PowerPlantOutput),
        calculate_production_plan req = Except.ok resp →
        ∀ e1 ∈ resp, ∀ e2 ∈ resp, e1.name = e2.name → e1.p = e2.p) ∧
    (calculate_production_plan exDupReq = Except.ok
        [{ name := "a", p := 30 }, { name := "b", p := 100 }, { name := "a", p := 30 }] ∧
      dictValuesSum (finalAllocation exDupReq) = 130 ∧
      exDupReq.load = 130 ∧
      (([{ name := "a", p := 30 }, { name := "b", p := 100 },
          { name := "a", p := 30 }] : List PowerPlantOutput).map PowerPlantOutput.p).sum = 160) := by
  refine ⟨?_, ?_, ?_, ?_, ?_, ?_, ?_⟩
  · intro load l d h
    rw [allocate_power_ok h]
    exact resultingAllocation_keys_nodup load l
  · intro d k v
    exact dictGet_insert_self d k v
  · intro req resp h e1 he1 e2 he2 hname
    rw [plan_resp_entries req resp h e1 he1, plan_resp_entries req resp h e2 he2, hname]
  · exact exDupRun
  · exact exDupDictSum
  · exact exDupLoad
  · exact exDupRespSum

unseal Rat.inv Rat.mul Rat.add Rat.sub in
/-- Witness for C9 at the duplicate-name request. -/
theorem claim_c9_witness :
    (dictKeys (finalAllocation exDupReq)).Nodup ∧
    dictGet (dictInsert [("a", 0)] "a" 30) "a" = some 30 := by
  constructor
  · exact claim_c9.1 exDupReq.load (rankedPlants exDupReq) (finalAllocation exDupReq)
      (by decide)
  · exact claim_c9.2.1 [("a", 0)] "a" 30

/-- C2 (amended): every allocation entry — after the greedy pass, after the
adjustment pass, and in the emitted plan — is 0 or lies within
`[min(pmin, effective max) - 0.05, effective max + 0.05]` for its plant.
The half-tenth slack and the `min` with the effective maximum are forced by
`claim_c2_counterexample`. -/
theorem claim_c2 (req : ProductionPlanRequest) (hval : req.Valid)
    (hnd : (req.powerplants.map PowerPlant.name).Nodup) :
    (∀ pwc ∈ rankedPlants req,
      ∃ v, dictGet (greedyPass req.load (rankedPlants req)).1 pwc.plant.name = some v ∧
        EntryOk pwc v) ∧
    (∀ pwc ∈ rankedPlants req,
      ∃ v, dictGet (finalAllocation req) pwc.plant.name = some v ∧ EntryOk pwc v) ∧
    (∀ resp, calculate_production_plan req = Except.ok resp →
      ∀ e ∈ resp, ∀ p ∈ req.powerplants, p.name = e.name →
        e.p = 0 ∨ (min p.pmin (get_actual_pmax req.fuels p) - 1 / 20 ≤ e.p ∧
          e.p ≤ get_actual_pmax req.fuels p + 1 / 20)) := by
  have hndS : ((rankedPlants req).map (fun p => p.plant.name)).Nodup :=
    ((ranked_names_perm req).nodup_iff).mpr hnd
  refine ⟨?_, final_entries req hnd, ?_⟩
  · intro pwc hm
    exact greedy_writes _ ([], req.load) pwc hm hndS
  · intro resp hok e he p hp hname
    have hep := plan_resp_entries req resp hok e he
    have hmem : toCosted req.fuels p ∈ rankedPlants req := by
      apply (ranked_perm req).mem_iff.mpr
      unfold costedPlants
      exact List.mem_map.mpr ⟨p, hp, rfl⟩
    obtain ⟨v, hv, hvt, hvb⟩ := final_entries req hnd (toCosted req.fuels p) hmem
    have hegetD : dictGetD (finalAllocation req) e.name = v := by
      unfold dictGetD
      rw [← hname]
      rw [show dictGet (finalAllocation req) p.name = some v from hv]
      rfl
    have hepv : e.p = v := by
      rw [hep, hegetD, round1_tenth hvt]
    rw [hepv]
    rcases hvb with hz | hb
    · exact Or.inl hz
    · exact Or.inr hb

set_option maxRecDepth 100000 in
unseal Rat.inv Rat.mul Rat.add Rat.sub in
/-- Counterexample to C2 as stated.  First: a successful plan assigns 0.2
to a wind plant whose effective maximum is 0.15 (`round(available, 1)`
overshoots the effective maximum), so an assigned output can exceed the
effective maximum.  Second: a successful plan assigns 30 to plant `w1`
whose pmin is 50 (the adjustment pass starts a wind-derated plant at its
effective maximum below pmin), so a positive output can lie strictly
between 0 and pmin, beyond any rounding slack. -/
theorem claim_c2_counterexample :
    (calculate_production_plan exRoundReq = Except.ok [{ name := "w", p := 1 / 5 }] ∧
      get_actual_pmax exRoundReq.fuels
        { name := "w", type := PowerPlantType.WINDTURBINE,
          efficiency := 1, pmin := 0, pmax := 1 } = 3 / 20 ∧
      ¬ ((1 : ℚ) / 5 ≤ 3 / 20) ∧ (1 : ℚ) / 5 ≠ 0) ∧
    (calculate_production_plan exPminReq = Except.ok
        [{ name := "wa", p := 100 }, { name := "w0", p := 449 / 10 },
         { name := "w1", p := 30 }, { name := "g", p := 200 }] ∧
      (∃ p ∈ exPminReq.powerplants, p.name = "w1" ∧ p.pmin = 50 ∧
        (0 : ℚ) < 30 ∧ (30 : ℚ) < p.pmin)) := by
  constructor
  · exact ⟨by decide, by decide, by norm_num, by norm_num⟩
  · exact ⟨by decide, by decide⟩

unseal Rat.inv Rat.mul Rat.add Rat.sub in
/-- Witness for C2 (amended) at the spec's first scenario. -/
theorem claim_c2_witness :
    ∃ v, dictGet (greedyPass exWind1Req.load (rankedPlants exWind1Req)).1
        (toCosted exWind1Req.fuels exWind1Plant).plant.name = some v ∧
      EntryOk (toCosted exWind1Req.fuels exWind1Plant) v :=
  (claim_c2 exWind1Req (by decide) (by decide)).1 (toCosted exWind1Req.fuels exWind1Plant)
    (by decide)

/-- C5 (amended): the adjustment pass runs exactly when the absolute
leftover of the greedy pass exceeds 0.1; it folds over the ranked plants in
reverse; each step is a no-op once `|remaining| ≤ 0.1` or when
`remaining ≤ 0`; a running plant below its effective max has its entry set
to `round(current + min(effective_max - current, remaining), 1)` with
`remaining` decremented by the unrounded `min(...)`; an idle plant with
`remaining ≥ pmin` has its entry set to
`round(min(remaining, effective_max), 1)` with `remaining` decremented by
the unrounded `min(...)`; any other plant is left unchanged.  The `round`
on the stored value (absent from the original claim) is forced by
`claim_c5_counterexample`. -/
theorem claim_c5 :
    (∀ (load : ℚ) (l : List PowerPlantWithCost),
      (1 / 10 < |(greedyPass load l).2| →
        resultingAllocation load l =
          adjust_allocation l (greedyPass load l).1 (greedyPass load l).2) ∧
      (|(greedyPass load l).2| ≤ 1 / 10 →
        resultingAllocation load l = (greedyPass load l).1)) ∧
    (∀ (l : List PowerPlantWithCost) (alloc : List (String × ℚ)) (rem : ℚ),
      adjust_allocation l alloc rem = (l.reverse.foldl adjustStep (alloc, rem)).1) ∧
    (∀ (st : List (String × ℚ) × ℚ) (pwc : PowerPlantWithCost),
      (|st.2| ≤ 1 / 10 → adjustStep st pwc = st) ∧
      (1 / 10 < |st.2| → 0 < st.2 → 0 < dictGetD st.1 pwc.plant.name →
        dictGetD st.1 pwc.plant.name < pwc.actual_pmax →
        adjustStep st pwc =
          (dictInsert st.1 pwc.plant.name (round1 (dictGetD st.1 pwc.plant.name +
             min (pwc.actual_pmax - dictGetD st.1 pwc.plant.name) st.2)),
           st.2 - min (pwc.actual_pmax - dictGetD st.1 pwc.plant.name) st.2)) ∧
      (1 / 10 < |st.2| → 0 < st.2 → dictGetD st.1 pwc.plant.name = 0 →
        pwc.plant.pmin ≤ st.2 →
        adjustStep st pwc =
          (dictInsert st.1 pwc.plant.name (round1 (min st.2 pwc.actual_pmax)),
           st.2 - min st.2 pwc.actual_pmax)) ∧
      (1 / 10 < |st.2| → 0 < st.2 →
        ¬ (0 < dictGetD st.1 pwc.plant.name ∧
            dictGetD st.1 pwc.plant.name < pwc.actual_pmax) →
        ¬ (dictGetD st.1 pwc.plant.name = 0 ∧ pwc.plant.pmin ≤ st.2) →
        adjustStep st pwc = st) ∧
      (1 / 10 < |st.2| → st.2 ≤ 0 → adjustStep st pwc = st)) := by
  refine ⟨?_, ?_, ?_⟩
  · intro load l
    constructor
    · intro h
      unfold resultingAllocation
      rw [if_pos h]
    · intro h
      unfold resultingAllocation
      rw [if_neg (not_lt.mpr h)]
  · intro l alloc rem
    rfl
  · intro st pwc
    refine ⟨?_, ?_, ?_, ?_, ?_⟩
    · intro h
      unfold adjustStep
      rw [if_pos h]
    · intro h1 h2 h3 h4
      unfold adjustStep
      rw [if_neg (not_le.mpr h1), if_pos h2, if_pos ⟨h3, h4⟩]
    · intro h1 h2 h3 h4
      unfold adjustStep
      rw [if_neg (not_le.mpr h1), if_pos h2,
        if_neg (by intro hc; rw [h3] at hc; exact lt_irrefl 0 hc.1), if_pos ⟨h3, h4⟩]
    · intro h1 h2 h3 h4
      unfold adjustStep
      rw [if_neg (not_le.mpr h1), if_pos h2, if_neg h3, if_neg h4]
    · intro h1 h2
      unfold adjustStep
      rw [if_neg (not_le.mpr h1), if_neg (not_lt.mpr h2)]

unseal Rat.inv Rat.mul Rat.add Rat.sub in
/-- Counterexample to C5 as stated: from a state reachable from a valid
request (plant `a` with effective max 20.04 running at 20.0, leftover 5),
the adjustment pass leaves the allocation at 20.0 — it does not increase it
by `min(effective_max - current, remaining) = 0.04`, because the stored
value is rounded to one decimal. -/
theorem claim_c5_counterexample :
    dictGet (adjust_allocation [exAdjustPlant] [("a", 20)] 5) "a" = some 20 ∧
    (0 : ℚ) < 20 ∧ (20 : ℚ) < exAdjustPlant.actual_pmax ∧
    (1 : ℚ) / 10 < |(5 : ℚ)| ∧ (0 : ℚ) < 5 ∧
    (20 : ℚ) + min (exAdjustPlant.actual_pmax - 20) 5 ≠ 20 := by decide

unseal Rat.inv Rat.mul Rat.add Rat.sub in
/-- Witness for C5 (amended) at the concrete state of the counterexample. -/
theorem claim_c5_witness :
    adjustStep ([("a", 20)], 5) exAdjustPlant =
      (dictInsert [("a", 20)] exAdjustPlant.plant.name
         (round1 (dictGetD [("a", 20)] exAdjustPlant.plant.name +
           min (exAdjustPlant.actual_pmax - dictGetD [("a", 20)] exAdjustPlant.plant.name) 5)),
       5 - min (exAdjustPlant.actual_pmax - dictGetD [("a", 20)] exAdjustPlant.plant.name) 5) :=
  (claim_c5.2.2 ([("a", 20)], 5) exAdjustPlant).2.1 (by decide) (by decide) (by decide)
    (by decide)

/-- C8 (amended): provided fossil fuel-plus-emission prices are strictly
positive (so fossil cost cannot tie wind's cost 0) and each wind plant's
effective maximum is a multiple of 0.1 (so `round` cannot erode it), when
the total wind effective capacity is at most the load, the merit order
places every wind plant before every non-wind plant, and every startable
wind plant (pmin ≤ effective max and effective max > 0.1) is allocated
exactly its full effective maximum in the final allocation and in any
successful plan.  The extra hypotheses are forced by
`claim_c8_counterexample` and by the rounding drift of claim C2. -/
theorem claim_c8 (req : ProductionPlanRequest) (hval : req.Valid)
    (hnd : (req.powerplants.map PowerPlant.name).Nodup)
    (hgas : 0 < req.fuels.gas_euro_per_mwh + req.fuels.co2_euro_per_ton * (3 / 10))
    (hker : 0 < req.fuels.kerosine_euro_per_mwh + req.fuels.co2_euro_per_ton * (3 / 10))
    (htenth : ∀ p ∈ req.powerplants, p.type = PowerPlantType.WINDTURBINE →
      Tenth (get_actual_pmax req.fuels p))
    (hcap : ((req.powerplants.filter (fun p => p.type = PowerPlantType.WINDTURBINE)).map
        (get_actual_pmax req.fuels)).sum ≤ req.load) :
    (rankedPlants req).Pairwise windFirst ∧
    (∀ p ∈ req.powerplants, p.type = PowerPlantType.WINDTURBINE →
      p.pmin ≤ get_actual_pmax req.fuels p → 1 / 10 < get_actual_pmax req.fuels p →
      dictGet (finalAllocation req) p.name = some (get_actual_pmax req.fuels p) ∧
      ∀ resp, calculate_production_plan req = Except.ok resp →
        ∀ e ∈ resp, e.name = p.name → e.p = get_actual_pmax req.fuels p) := by
  have hwf := ranked_wind_first req hval hgas hker
  refine ⟨hwf, ?_⟩
  intro p hp hwind hpmin hbig
  have hndS : ((rankedPlants req).map (fun q => q.plant.name)).Nodup :=
    ((ranked_names_perm req).nodup_iff).mpr hnd
  have hwmem : toCosted req.fuels p ∈ rankedPlants req := by
    apply (ranked_perm req).mem_iff.mpr
    unfold costedPlants
    exact List.mem_map.mpr ⟨p, hp, rfl⟩
  have hwprops : ∀ pwc ∈ rankedPlants req, pwc.plant.type = PowerPlantType.WINDTURBINE →
      Tenth pwc.actual_pmax ∧ 0 ≤ pwc.actual_pmax := by
    intro pwc hm hwindp
    obtain ⟨q, hq, rfl⟩ := mem_ranked hm
    have hq_wind : q.type = PowerPlantType.WINDTURBINE := hwindp
    refine ⟨htenth q hq hq_wind, ?_⟩
    show 0 ≤ get_actual_pmax req.fuels q
    unfold get_actual_pmax
    rw [if_pos hq_wind]
    have h1 : 0 < q.pmax := (hval.2.2.2 q hq).2.2.2.1
    have h2 : 0 ≤ req.fuels.wind_percentage := hval.2.1.1
    apply mul_nonneg (le_of_lt h1)
    apply div_nonneg h2
    norm_num
  have hsum : (((rankedPlants req).filter
      (fun pwc => pwc.plant.type = PowerPlantType.WINDTURBINE)).map
      (fun pwc => pwc.actual_pmax)).sum ≤ req.load := by
    rw [wind_capacity_eq req]
    exact hcap
  have hwwind : (toCosted req.fuels p).plant.type = PowerPlantType.WINDTURBINE := hwind
  have hgfull := greedy_wind_full (rankedPlants req) req.load [] hndS hwf hwprops hsum
    (toCosted req.fuels p) hwmem hwwind hpmin hbig
  have hfinal : dictGet (finalAllocation req) p.name =
      some (get_actual_pmax req.fuels p) := by
    unfold finalAllocation resultingAllocation
    by_cases hadj : 1 / 10 < |(greedyPass req.load (rankedPlants req)).2|
    · rw [if_pos hadj]
      exact adjust_wind_keep (rankedPlants req) _ _ hndS (toCosted req.fuels p)
        hwmem hbig hgfull
    · rw [if_neg hadj]
      exact hgfull
  refine ⟨hfinal, ?_⟩
  intro resp hok e he hname
  have hep := plan_resp_entries req resp hok e he
  have hgd : dictGetD (finalAllocation req) e.name = get_actual_pmax req.fuels p := by
    unfold dictGetD
    rw [hname, hfinal]
    rfl
  rw [hep, hgd, round1_tenth (htenth p hp hwind)]

set_option maxRecDepth 100000 in
unseal Rat.inv Rat.mul Rat.add Rat.sub in
/-- Counterexample to C8 as stated: with a zero gas price and zero CO2
price, the gas plant's cost ties the wind plant's cost 0 and its larger
effective maximum wins the tie-break, so the successful plan gives the gas
plant 100 and the wind plant 0 even though the total wind effective
capacity (50) is at most the load and the wind plant could start. -/
theorem claim_c8_counterexample :
    calculate_production_plan exFreeGasReq =
      Except.ok [{ name := "w", p := 0 }, { name := "g", p := 100 }] ∧
    ((exFreeGasReq.powerplants.filter
        (fun p => p.type = PowerPlantType.WINDTURBINE)).map
      (get_actual_pmax exFreeGasReq.fuels)).sum ≤ exFreeGasReq.load ∧
    (∃ p ∈ exFreeGasReq.powerplants, p.type = PowerPlantType.WINDTURBINE ∧
      p.pmin ≤ get_actual_pmax exFreeGasReq.fuels p ∧
      1 / 10 < get_actual_pmax exFreeGasReq.fuels p ∧
      get_actual_pmax exFreeGasReq.fuels p ≠ 0) ∧
    (100 : ℚ) ≠ 0 := by decide

set_option maxRecDepth 100000 in
unseal Rat.inv Rat.mul Rat.add Rat.sub in
/-- Witness for C8 (amended) at the spec's first scenario. -/
theorem claim_c8_witness :
    dictGet (finalAllocation exWind1Req) exWind1Plant.name =
      some (get_actual_pmax exWind1Req.fuels exWind1Plant) :=
  ((claim_c8 exWind1Req (by decide) (by decide) (by decide) (by decide) (by decide)
      (by decide)).2 exWind1Plant (by decide) (by decide) (by decide) (by decide)).1

end Claims

end PowerPlan
